import Mathlib

set_option maxRecDepth 40000
set_option maxHeartbeats 2000000

/-!
Verification of the JSON-RPC message model and stdio transport of
`src/transport.rs` (crate `mcp-sdk`).

The Rust source defines four serde-derived types — `JsonRpcRequest`,
`JsonRpcNotification`, `JsonRpcResponse`, `JsonRpcError` — an untagged
enum `JsonRpcMessage` over the first three (variant order Response,
Request, Notification), and a `StdioTransport` that frames messages as
newline-delimited JSON on stdin/stdout.

The shallow embedding below mirrors serde's derived behaviour:
  * untagged enums buffer the JSON value and try each variant in
    declaration order, returning the first success;
  * `deny_unknown_fields` structs error on an unrecognised or duplicated
    key; structs without it (only `JsonRpcError`) silently skip unknown
    keys;
  * container-level `serde(default)` (on Notification, Response, Error)
    fills missing fields from the struct's `Default`; `Option` fields
    without it (Request's `params`) become `none` when missing;
  * `Option<T>` deserialises JSON `null` as `none`;
  * serde structs also deserialise from JSON sequences, reading fields
    in declaration order (missing trailing elements use the container
    default when there is one, extra elements are an error);
  * serialisation emits fields in declaration order and skips `none`
    options (`skip_serializing_if = "Option::is_none"`).

JSON numbers are modelled as integers: the message model's numeric
fields are `u64` / `i32`, and no claim involves floating point.
The text layer (`serde_json::from_str` / `to_string`) is modelled by a
small JSON parser and renderer; the `StdioTransport` is modelled by
explicit state passing over an input string and an output-stream record
with separate pending and flushed bytes.
-/

namespace Mcp

/-- JSON values (`serde_json::Value` restricted to integral numbers).
Objects keep their fields as an ordered association list, as the wire
text presents them. -/
inductive Json where
  | null : Json
  | bool (b : Bool) : Json
  | num (n : Int) : Json
  | str (s : String) : Json
  | arr (xs : List Json) : Json
  | obj (members : List (String × Json)) : Json

/-! ## JSON text parsing (the `serde_json::from_str` layer) -/

/-- Skip JSON whitespace, as `serde_json` does between tokens. -/
def skipWs : List Char → List Char
  | [] => []
  | c :: cs =>
    if c = ' ' ∨ c = '\t' ∨ c = '\n' ∨ c = '\r' then skipWs cs else c :: cs

/-- Value of one hexadecimal digit (the ranges are the code points of
`0`-`9`, `a`-`f` and `A`-`F`, compared through `Char.toNat` exactly as
the character comparisons do). -/
def hexDigitVal (c : Char) : Option Nat :=
  if 48 ≤ c.toNat ∧ c.toNat ≤ 57 then some (c.toNat - 48)
  else if 97 ≤ c.toNat ∧ c.toNat ≤ 102 then some (c.toNat - 87)
  else if 65 ≤ c.toNat ∧ c.toNat ≤ 70 then some (c.toNat - 55)
  else none

/-- Parse the body of a JSON string after the opening quote, handling
the escape sequences `serde_json` accepts; returns the string and the
remaining input after the closing quote. -/
def parseStringBody : List Char → List Char → Option (String × List Char)
  | [], _ => none
  | c :: rest, acc =>
    if c = '"' then some (String.mk acc.reverse, rest)
    else if c = '\\' then
      match rest with
      | [] => none
      | e :: rest1 =>
        if e = '"' then parseStringBody rest1 ('"' :: acc)
        else if e = '\\' then parseStringBody rest1 ('\\' :: acc)
        else if e = '/' then parseStringBody rest1 ('/' :: acc)
        else if e = 'b' then parseStringBody rest1 ('\x08' :: acc)
        else if e = 'f' then parseStringBody rest1 ('\x0c' :: acc)
        else if e = 'n' then parseStringBody rest1 ('\n' :: acc)
        else if e = 'r' then parseStringBody rest1 ('\r' :: acc)
        else if e = 't' then parseStringBody rest1 ('\t' :: acc)
        else if e = 'u' then
          match rest1 with
          | h1 :: h2 :: h3 :: h4 :: rest2 =>
            match hexDigitVal h1, hexDigitVal h2, hexDigitVal h3, hexDigitVal h4 with
            | some a, some b, some c2, some d =>
              parseStringBody rest2 (Char.ofNat (((a * 16 + b) * 16 + c2) * 16 + d) :: acc)
            | _, _, _, _ => none
          | _ => none
        else none
    else if c.toNat < 32 then none
    else parseStringBody rest (c :: acc)

/-- Take a maximal run of decimal digits. -/
def takeDigits : List Char → List Char × List Char
  | [] => ([], [])
  | c :: cs =>
    if c.isDigit then
      let p := takeDigits cs
      (c :: p.1, p.2)
    else ([], c :: cs)

/-- Numeric value of a digit run. -/
def digitsToNat (ds : List Char) : Nat :=
  ds.foldl (fun acc c => acc * 10 + (c.toNat - 48)) 0

/-- Parse an integral JSON number (optional minus sign then digits).
A following `.`, `e` or `E` would denote a float, which the embedding
does not model, so it is rejected. -/
def parseNumber (cs : List Char) : Option (Json × List Char) :=
  let p := match cs with
    | [] => (false, cs)
    | c :: t => if c = '-' then (true, t) else (false, cs)
  let q := takeDigits p.2
  match q.1 with
  | [] => none
  | _ :: _ =>
    match q.2 with
    | '.' :: _ => none
    | 'e' :: _ => none
    | 'E' :: _ => none
    | _ =>
      let n : Int := Int.ofNat (digitsToNat q.1)
      some (.num (if p.1 then -n else n), q.2)

mutual

/-- Parse one JSON value (fuelled recursive-descent; the leading
character decides the production, exactly as `serde_json` peeks one
byte). -/
def parseValue : Nat → List Char → Option (Json × List Char)
  | 0, _ => none
  | fuel + 1, cs =>
    match skipWs cs with
    | [] => none
    | c :: rest =>
      if c = 'n' then
        match rest with
        | 'u' :: 'l' :: 'l' :: rest1 => some (.null, rest1)
        | _ => none
      else if c = 't' then
        match rest with
        | 'r' :: 'u' :: 'e' :: rest1 => some (.bool true, rest1)
        | _ => none
      else if c = 'f' then
        match rest with
        | 'a' :: 'l' :: 's' :: 'e' :: rest1 => some (.bool false, rest1)
        | _ => none
      else if c = '"' then (parseStringBody rest []).map (fun p => (.str p.1, p.2))
      else if c = '[' then parseArray fuel (skipWs rest)
      else if c = '\x7b' then parseObject fuel (skipWs rest)
      else parseNumber (c :: rest)

/-- Parse an array body after `[` and leading whitespace. -/
def parseArray : Nat → List Char → Option (Json × List Char)
  | 0, _ => none
  | fuel + 1, cs =>
    match cs with
    | [] => none
    | c :: rest =>
      if c = ']' then some (.arr [], rest)
      else parseElements fuel (c :: rest) []

/-- Parse the comma-separated elements of a non-empty array. -/
def parseElements : Nat → List Char → List Json → Option (Json × List Char)
  | 0, _, _ => none
  | fuel + 1, cs, acc =>
    match parseValue fuel cs with
    | none => none
    | some (v, rest) =>
      match skipWs rest with
      | ',' :: rest2 => parseElements fuel rest2 (v :: acc)
      | ']' :: rest2 => some (.arr (v :: acc).reverse, rest2)
      | _ => none

/-- Parse an object body after the opening brace and leading whitespace. -/
def parseObject : Nat → List Char → Option (Json × List Char)
  | 0, _ => none
  | fuel + 1, cs =>
    match cs with
    | '\x7d' :: rest => some (.obj [], rest)
    | _ => parseMembers fuel cs []

/-- Parse the comma-separated members of a non-empty object. -/
def parseMembers : Nat → List Char → List (String × Json) → Option (Json × List Char)
  | 0, _, _ => none
  | fuel + 1, cs, acc =>
    match cs with
    | '"' :: rest =>
      match parseStringBody rest [] with
      | none => none
      | some (k, rest1) =>
        match skipWs rest1 with
        | ':' :: rest2 =>
          match parseValue fuel rest2 with
          | none => none
          | some (v, rest3) =>
            match skipWs rest3 with
            | ',' :: rest4 => parseMembers fuel (skipWs rest4) ((k, v) :: acc)
            | '\x7d' :: rest4 => some (.obj ((k, v) :: acc).reverse, rest4)
            | _ => none
        | _ => none
    | _ => none

end

/-- Parse a complete JSON document; trailing whitespace is allowed,
any other trailing text is an error, exactly as `serde_json::from_str`
behaves. -/
def parseJson (s : String) : Option Json :=
  match parseValue (2 * s.length + 2) s.data with
  | some (v, rest) =>
    match skipWs rest with
    | [] => some v
    | _ => none
  | none => none

/-! ## JSON rendering (the `serde_json::to_string` layer) -/

/-- Lower-case hexadecimal digit. -/
def hexChar (n : Nat) : Char :=
  if n < 10 then Char.ofNat ('0'.toNat + n) else Char.ofNat ('a'.toNat + n - 10)

/-- Escape one character the way `serde_json`'s compact formatter does. -/
def escapeChar (c : Char) : String :=
  if c = '"' then "\\\""
  else if c = '\\' then "\\\\"
  else if c = '\n' then "\\n"
  else if c = '\r' then "\\r"
  else if c = '\t' then "\\t"
  else if c = '\x08' then "\\b"
  else if c = '\x0c' then "\\f"
  else if c.toNat < 32 then
    String.mk ['\\', 'u', '0', '0', hexChar (c.toNat / 16), hexChar (c.toNat % 16)]
  else String.singleton c

/-- Escape every character of a string body in order. -/
def escapeList : List Char → List Char
  | [] => []
  | c :: rest => (escapeChar c).data ++ escapeList rest

/-- Render a JSON string literal with quotes and escapes. -/
def renderString (s : String) : String :=
  "\"" ++ String.mk (escapeList s.data) ++ "\""

/-- Minimal decimal digits of a natural number, most significant digit
first (fuelled so that the definition computes by `rfl`; any fuel of at
least the digit count — in particular `n + 1` — is enough). -/
def renderNatDigits : Nat → Nat → List Char
  | 0, _ => []
  | fuel + 1, n =>
    if n < 10 then [Char.ofNat (48 + n)]
    else renderNatDigits fuel (n / 10) ++ [Char.ofNat (48 + n % 10)]

/-- Render an integer in minimal decimal notation with a leading `-`
for negatives, as `serde_json`'s integer formatter does. -/
def renderInt (n : Int) : String :=
  if n < 0 then "-" ++ String.mk (renderNatDigits (n.natAbs + 1) n.natAbs)
  else String.mk (renderNatDigits (n.toNat + 1) n.toNat)

mutual

/-- Compact rendering of a JSON value (no spaces), as
`serde_json::to_string` produces. -/
def render : Json → String
  | .null => "null"
  | .bool b => if b then "true" else "false"
  | .num n => renderInt n
  | .str s => renderString s
  | .arr xs => "[" ++ renderArr xs ++ "]"
  | .obj ms => "\x7b" ++ renderObj ms ++ "\x7d"

/-- Comma-separated rendering of array elements. -/
def renderArr : List Json → String
  | [] => ""
  | [x] => render x
  | x :: y :: rest => render x ++ "," ++ renderArr (y :: rest)

/-- Comma-separated rendering of object members. -/
def renderObj : List (String × Json) → String
  | [] => ""
  | [(k, v)] => renderString k ++ ":" ++ render v
  | (k, v) :: m :: rest => renderString k ++ ":" ++ render v ++ "," ++ renderObj (m :: rest)

end

mutual

/-- Fuel sufficient for `parseValue` to parse a rendered value. -/
def fuelValue : Json → Nat
  | .null => 1
  | .bool _ => 1
  | .num _ => 1
  | .str _ => 1
  | .arr xs => 2 + fuelElems xs
  | .obj ms => 2 + fuelMembers ms

/-- Fuel sufficient for `parseElements` on a rendered element list. -/
def fuelElems : List Json → Nat
  | [] => 0
  | x :: xs => 1 + max (fuelValue x) (fuelElems xs)

/-- Fuel sufficient for `parseMembers` on a rendered member list. -/
def fuelMembers : List (String × Json) → Nat
  | [] => 0
  | (_, v) :: ms => 1 + max (fuelValue v) (fuelMembers ms)

end

/-- The characters that may legitimately follow a complete rendered
JSON value: end of input, or a separator / closing bracket. They are
exactly the continuations the renderer produces, and none of them can
extend a number literal. -/
def StopRest : List Char → Prop
  | [] => True
  | c :: _ => c = ',' ∨ c = ']' ∨ c = '\x7d'

/-! ## The message model (`transport.rs` types) -/

/-- `pub struct JsonRpcVersion(String)` — a transparent newtype over the
version string. -/
structure JsonRpcVersion where
  ver : String

/-- `impl Default for JsonRpcVersion` returns `"2.0"`. -/
def JsonRpcVersion.default : JsonRpcVersion := ⟨"2.0"⟩

/-- `pub struct JsonRpcRequest` — `id: u64`, `method: String`,
`params: Option<Value>`, `jsonrpc: JsonRpcVersion`;
`deny_unknown_fields`, no container default. `u64` is modelled as `Nat`
with the range enforced at decode time. -/
structure JsonRpcRequest where
  id : Nat
  method : String
  params : Option Json
  jsonrpc : JsonRpcVersion

/-- `pub struct JsonRpcNotification` — `method`, `params`, `jsonrpc`;
`deny_unknown_fields` and container-level `serde(default)`. -/
structure JsonRpcNotification where
  method : String
  params : Option Json
  jsonrpc : JsonRpcVersion

/-- `pub struct JsonRpcError` — `code: i32`, `message: String`,
`data: Option<Value>`; container default but NO `deny_unknown_fields`. -/
structure JsonRpcError where
  code : Int
  message : String
  data : Option Json

/-- `pub struct JsonRpcResponse` — `id: u64`, `result`, `error`,
`jsonrpc`; `deny_unknown_fields` and container-level `serde(default)`. -/
structure JsonRpcResponse where
  id : Nat
  result : Option Json
  error : Option JsonRpcError
  jsonrpc : JsonRpcVersion

/-- `pub enum JsonRpcMessage` — untagged, variants in declaration order
Response, Request, Notification. -/
inductive JsonRpcMessage where
  | response (r : JsonRpcResponse) : JsonRpcMessage
  | request (r : JsonRpcRequest) : JsonRpcMessage
  | notification (n : JsonRpcNotification) : JsonRpcMessage

/-! ## Field decoders (serde primitive deserialisers) -/

/-- Deserialise a `u64`: an integral JSON number in `[0, 2^64)`. -/
def decodeU64 (v : Json) : Option Nat :=
  match v with
  | .num n => if 0 ≤ n ∧ n < 2 ^ 64 then some n.toNat else none
  | _ => none

/-- Deserialise an `i32`: an integral JSON number in `[-2^31, 2^31)`. -/
def decodeI32 (v : Json) : Option Int :=
  match v with
  | .num n => if -(2 ^ 31) ≤ n ∧ n < 2 ^ 31 then some n else none
  | _ => none

/-- Deserialise a `String` (also `JsonRpcVersion` via
`serde(transparent)`): any JSON string, with no validation of its
content. -/
def decodeString (v : Json) : Option String :=
  match v with
  | .str s => some s
  | _ => none

/-- Deserialise `JsonRpcVersion` (transparent newtype over `String`). -/
def decodeVersion (v : Json) : Option JsonRpcVersion :=
  (decodeString v).map JsonRpcVersion.mk

/-- Deserialise `Option<serde_json::Value>`: JSON `null` becomes `None`,
anything else `Some` of the value verbatim; this never fails. -/
def decodeOptValue (v : Json) : Option Json :=
  match v with
  | .null => none
  | w => some w

/-! ## Struct deserialisers (serde derive `visit_map` / `visit_seq`) -/

/-- Map deserialiser for `JsonRpcError`: fields `code`, `message`,
`data`, duplicates rejected, container default fills missing fields,
and — `deny_unknown_fields` being absent on this one struct — unknown
keys are skipped. -/
def decodeErrorMap : List (String × Json) → Option Int → Option String →
    Option (Option Json) → Option JsonRpcError
  | [], code?, message?, data? =>
    some ⟨code?.getD 0, message?.getD "",
      match data? with
      | some d => d
      | none => none⟩
  | (k, v) :: rest, code?, message?, data? =>
    if k = "code" then
      match code?, decodeI32 v with
      | none, some c => decodeErrorMap rest (some c) message? data?
      | _, _ => none
    else if k = "message" then
      match message?, decodeString v with
      | none, some s => decodeErrorMap rest code? (some s) data?
      | _, _ => none
    else if k = "data" then
      match data? with
      | none => decodeErrorMap rest code? message? (some (decodeOptValue v))
      | some _ => none
    else decodeErrorMap rest code? message? data?

/-- Sequence deserialiser for `JsonRpcError` (fields in declaration
order `code`, `message`, `data`; container default fills a short
sequence, extra elements are an error). -/
def decodeErrorSeq : List Json → Option JsonRpcError
  | [] => some ⟨0, "", none⟩
  | [a] => (decodeI32 a).map (fun c => ⟨c, "", none⟩)
  | [a, b] => do
    let c ← decodeI32 a
    let m ← decodeString b
    some ⟨c, m, none⟩
  | [a, b, c] => do
    let co ← decodeI32 a
    let m ← decodeString b
    some ⟨co, m, decodeOptValue c⟩
  | _ => none

/-- Deserialise `JsonRpcError` from a JSON value. -/
def decodeError : Json → Option JsonRpcError
  | .obj ms => decodeErrorMap ms none none none
  | .arr xs => decodeErrorSeq xs
  | _ => none

/-- Deserialise `Option<JsonRpcError>`: `null` is `None`, otherwise the
error struct must deserialise. -/
def decodeOptError (v : Json) : Option (Option JsonRpcError) :=
  match v with
  | .null => some none
  | w => (decodeError w).map some

/-- Map deserialiser for `JsonRpcRequest` (`deny_unknown_fields`, no
defaults: missing `id`, `method` or `jsonrpc` is an error; a missing
`params` is `None` because `Option` fields are not required). -/
def decodeRequestMap : List (String × Json) → Option Nat → Option String →
    Option (Option Json) → Option JsonRpcVersion → Option JsonRpcRequest
  | [], id?, method?, params?, jsonrpc? =>
    match id?, method?, jsonrpc? with
    | some i, some m, some j =>
      some ⟨i, m,
        (match params? with
         | some p => p
         | none => none), j⟩
    | _, _, _ => none
  | (k, v) :: rest, id?, method?, params?, jsonrpc? =>
    if k = "id" then
      match id?, decodeU64 v with
      | none, some n => decodeRequestMap rest (some n) method? params? jsonrpc?
      | _, _ => none
    else if k = "method" then
      match method?, decodeString v with
      | none, some s => decodeRequestMap rest id? (some s) params? jsonrpc?
      | _, _ => none
    else if k = "params" then
      match params? with
      | none => decodeRequestMap rest id? method? (some (decodeOptValue v)) jsonrpc?
      | some _ => none
    else if k = "jsonrpc" then
      match jsonrpc?, decodeVersion v with
      | none, some j => decodeRequestMap rest id? method? params? (some j)
      | _, _ => none
    else none

/-- Sequence deserialiser for `JsonRpcRequest`: no container default, so
exactly the four fields `id`, `method`, `params`, `jsonrpc` in order. -/
def decodeRequestSeq : List Json → Option JsonRpcRequest
  | [a, b, c, d] => do
    let i ← decodeU64 a
    let m ← decodeString b
    let j ← decodeVersion d
    some ⟨i, m, decodeOptValue c, j⟩
  | _ => none

/-- Deserialise `JsonRpcRequest` from a JSON value. -/
def decodeRequest : Json → Option JsonRpcRequest
  | .obj ms => decodeRequestMap ms none none none none
  | .arr xs => decodeRequestSeq xs
  | _ => none

/-- Map deserialiser for `JsonRpcNotification` (`deny_unknown_fields`,
container default: missing fields become `method=""`, `params=None`,
`jsonrpc="2.0"`). -/
def decodeNotificationMap : List (String × Json) → Option String →
    Option (Option Json) → Option JsonRpcVersion → Option JsonRpcNotification
  | [], method?, params?, jsonrpc? =>
    some ⟨method?.getD "",
      (match params? with
       | some p => p
       | none => none), jsonrpc?.getD ⟨"2.0"⟩⟩
  | (k, v) :: rest, method?, params?, jsonrpc? =>
    if k = "method" then
      match method?, decodeString v with
      | none, some s => decodeNotificationMap rest (some s) params? jsonrpc?
      | _, _ => none
    else if k = "params" then
      match params? with
      | none => decodeNotificationMap rest method? (some (decodeOptValue v)) jsonrpc?
      | some _ => none
    else if k = "jsonrpc" then
      match jsonrpc?, decodeVersion v with
      | none, some j => decodeNotificationMap rest method? params? (some j)
      | _, _ => none
    else none

/-- Sequence deserialiser for `JsonRpcNotification` (container default,
fields `method`, `params`, `jsonrpc`). -/
def decodeNotificationSeq : List Json → Option JsonRpcNotification
  | [] => some ⟨"", none, ⟨"2.0"⟩⟩
  | [a] => (decodeString a).map (fun m => ⟨m, none, ⟨"2.0"⟩⟩)
  | [a, b] => (decodeString a).map (fun m => ⟨m, decodeOptValue b, ⟨"2.0"⟩⟩)
  | [a, b, c] => do
    let m ← decodeString a
    let j ← decodeVersion c
    some ⟨m, decodeOptValue b, j⟩
  | _ => none

/-- Deserialise `JsonRpcNotification` from a JSON value. -/
def decodeNotification : Json → Option JsonRpcNotification
  | .obj ms => decodeNotificationMap ms none none none
  | .arr xs => decodeNotificationSeq xs
  | _ => none

/-- Map deserialiser for `JsonRpcResponse` (`deny_unknown_fields`,
container default: missing fields become `id=0`, `result=None`,
`error=None`, `jsonrpc="2.0"`). -/
def decodeResponseMap : List (String × Json) → Option Nat →
    Option (Option Json) → Option (Option JsonRpcError) →
    Option JsonRpcVersion → Option JsonRpcResponse
  | [], id?, result?, error?, jsonrpc? =>
    some ⟨id?.getD 0,
      (match result? with
       | some r => r
       | none => none),
      (match error? with
       | some e => e
       | none => none), jsonrpc?.getD ⟨"2.0"⟩⟩
  | (k, v) :: rest, id?, result?, error?, jsonrpc? =>
    if k = "id" then
      match id?, decodeU64 v with
      | none, some n => decodeResponseMap rest (some n) result? error? jsonrpc?
      | _, _ => none
    else if k = "result" then
      match result? with
      | none => decodeResponseMap rest id? (some (decodeOptValue v)) error? jsonrpc?
      | some _ => none
    else if k = "error" then
      match error?, decodeOptError v with
      | none, some e => decodeResponseMap rest id? result? (some e) jsonrpc?
      | _, _ => none
    else if k = "jsonrpc" then
      match jsonrpc?, decodeVersion v with
      | none, some j => decodeResponseMap rest id? result? error? (some j)
      | _, _ => none
    else none

/-- Sequence deserialiser for `JsonRpcResponse` (container default,
fields `id`, `result`, `error`, `jsonrpc`). -/
def decodeResponseSeq : List Json → Option JsonRpcResponse
  | [] => some ⟨0, none, none, ⟨"2.0"⟩⟩
  | [a] => (decodeU64 a).map (fun i => ⟨i, none, none, ⟨"2.0"⟩⟩)
  | [a, b] => (decodeU64 a).map (fun i => ⟨i, decodeOptValue b, none, ⟨"2.0"⟩⟩)
  | [a, b, c] => do
    let i ← decodeU64 a
    let e ← decodeOptError c
    some ⟨i, decodeOptValue b, e, ⟨"2.0"⟩⟩
  | [a, b, c, d] => do
    let i ← decodeU64 a
    let e ← decodeOptError c
    let j ← decodeVersion d
    some ⟨i, decodeOptValue b, e, j⟩
  | _ => none

/-- Deserialise `JsonRpcResponse` from a JSON value. -/
def decodeResponse : Json → Option JsonRpcResponse
  | .obj ms => decodeResponseMap ms none none none none
  | .arr xs => decodeResponseSeq xs
  | _ => none

/-- Deserialise the untagged `JsonRpcMessage`: try Response, then
Request, then Notification, keeping the first variant that succeeds. -/
def decodeMessage (v : Json) : Option JsonRpcMessage :=
  match decodeResponse v with
  | some r => some (.response r)
  | none =>
    match decodeRequest v with
    | some r => some (.request r)
    | none => (decodeNotification v).map .notification

/-- `serde_json::from_str::<JsonRpcMessage>`: parse the text, then run
the untagged deserialiser. -/
def from_str (s : String) : Option JsonRpcMessage :=
  (parseJson s).bind decodeMessage

/-! ## Serialisers (serde derive `Serialize`) -/

/-- Emit one optional field, skipped when `None`
(`skip_serializing_if = "Option::is_none"`). -/
def optField (name : String) (v : Option Json) : List (String × Json) :=
  match v with
  | some x => [(name, x)]
  | none => []

/-- Serialise `JsonRpcError` (fields `code`, `message`, `data`). -/
def encodeError (e : JsonRpcError) : Json :=
  .obj ([("code", .num e.code)] ++ [("message", .str e.message)] ++
    optField "data" e.data)

/-- Serialise `JsonRpcRequest` (fields `id`, `method`, `params`,
`jsonrpc`). -/
def encodeRequest (r : JsonRpcRequest) : Json :=
  .obj ([("id", .num (r.id : Int))] ++ [("method", .str r.method)] ++
    optField "params" r.params ++ [("jsonrpc", .str r.jsonrpc.ver)])

/-- Serialise `JsonRpcNotification` (fields `method`, `params`,
`jsonrpc`). -/
def encodeNotification (n : JsonRpcNotification) : Json :=
  .obj ([("method", .str n.method)] ++ optField "params" n.params ++
    [("jsonrpc", .str n.jsonrpc.ver)])

/-- Serialise `JsonRpcResponse` (fields `id`, `result`, `error`,
`jsonrpc`). -/
def encodeResponse (r : JsonRpcResponse) : Json :=
  .obj ([("id", .num (r.id : Int))] ++ optField "result" r.result ++
    optField "error" (r.error.map encodeError) ++
    [("jsonrpc", .str r.jsonrpc.ver)])

/-- Serialise the untagged `JsonRpcMessage` (the active variant is
serialised directly). -/
def encodeMessage : JsonRpcMessage → Json
  | .response r => encodeResponse r
  | .request r => encodeRequest r
  | .notification n => encodeNotification n

/-- `serde_json::to_string::<JsonRpcMessage>`. -/
def to_string (m : JsonRpcMessage) : String :=
  render (encodeMessage m)

/-! ## Transport model (`StdioTransport`) -/

/-- The spec's error taxonomy for the transport: `MalformedMessage` for
decode failures (`serde_json` errors), `ChannelFailure` for failures of
the underlying byte-stream reads and writes (`std::io` errors). -/
inductive TransportError where
  | malformedMessage : TransportError
  | channelFailure : TransportError
deriving DecidableEq

/-- Standard output modelled as the bytes already flushed to the peer
plus the bytes still sitting in the process's stdout buffer. -/
structure OutputStream where
  flushed : String
  pending : String

/-- `Write::write_all`: append bytes to the stdout buffer. -/
def write_all (w : OutputStream) (bytes : String) : OutputStream :=
  ⟨w.flushed, w.pending ++ bytes⟩

/-- `Write::flush`: push all buffered bytes to the peer. -/
def flushOut (w : OutputStream) : OutputStream :=
  ⟨w.flushed ++ w.pending, ""⟩

/-- `BufRead::read_line` on the remaining stdin text: consume up to and
including the first `\n` (or everything when no terminator remains —
in particular zero bytes at end-of-input — with no error). -/
def read_line_chars : List Char → List Char × List Char
  | [] => ([], [])
  | c :: cs =>
    if c = '\n' then ([c], cs)
    else
      let p := read_line_chars cs
      (c :: p.1, p.2)

/-- `read_line` at the string level: the line read (terminator
included) and the remaining input. -/
def read_line (s : String) : String × String :=
  let p := read_line_chars s.data
  (String.mk p.1, String.mk p.2)

/-- `StdioTransport::receive`: `read_line` from stdin — which succeeds
with zero bytes at end-of-input — then `serde_json::from_str` on the
line; a decode failure is a `MalformedMessage` error. The model's
streams never raise `std::io` errors, so `channelFailure` is never
produced here. -/
def StdioTransport.receive (input : String) :
    Except TransportError (JsonRpcMessage × String) :=
  let p := read_line input
  match from_str p.1 with
  | some m => .ok (m, p.2)
  | none => .error .malformedMessage

/-- `StdioTransport::send`: serialise, `write_all` the bytes, then
`write_all` a single `\n`, then flush, and return success. -/
def StdioTransport.send (message : JsonRpcMessage) (w : OutputStream) :
    Except TransportError OutputStream :=
  let serialized := to_string message
  .ok (flushOut (write_all (write_all w serialized) "\n"))

/-! ## Auxiliary notions used by the claims -/

/-- Whether a message is the Notification variant. -/
def isNotification : JsonRpcMessage → Bool
  | .notification _ => true
  | _ => false

/-- Top-level keys of a JSON object. -/
def objKeys : Json → List String
  | .obj ms => ms.map Prod.fst
  | _ => []

/-- Every key recognised by at least one variant of `JsonRpcMessage`. -/
def knownKeys : List String :=
  ["id", "method", "params", "jsonrpc", "result", "error"]

/-- Range invariant tying the embedding's unbounded integers to the
Rust field types: `id` fits in `u64` and an error `code` fits in `i32`.
Every value constructible in the Rust program satisfies it. -/
def wfError (e : JsonRpcError) : Bool :=
  decide (-(2 ^ 31) ≤ e.code ∧ e.code < 2 ^ 31)

/-- Range invariant for a whole message (see `wfError`). -/
def wfMessage : JsonRpcMessage → Bool
  | .request r => decide (r.id < 2 ^ 64)
  | .notification _ => true
  | .response r =>
    decide (r.id < 2 ^ 64) &&
      (match r.error with
       | some e => wfError e
       | none => true)

/-- Collapse of a present-but-`null` optional JSON value to an absent
one: `Option<Value>` serialises `Some(Null)` as `null`, which
deserialises back to `None`. -/
def normOpt : Option Json → Option Json
  | none => none
  | some v => decodeOptValue v

/-- The decode-after-encode normal form of an error payload. -/
def normalizeError (e : JsonRpcError) : JsonRpcError :=
  ⟨e.code, e.message, normOpt e.data⟩

/-- The decode-after-encode normal form of a message: optional JSON
values that were `Some(Null)` come back as `None`; everything else is
unchanged. -/
def normalizeMessage : JsonRpcMessage → JsonRpcMessage
  | .request r => .request ⟨r.id, r.method, normOpt r.params, r.jsonrpc⟩
  | .notification n => .notification ⟨n.method, normOpt n.params, n.jsonrpc⟩
  | .response r =>
    .response ⟨r.id, normOpt r.result, r.error.map normalizeError, r.jsonrpc⟩

/-- The `params` object of the repository test's initialize request. -/
def initializeParams : Json :=
  .obj [("protocolVersion", .str "2024-11-05"), ("capabilities", .obj []),
    ("clientInfo", .obj [("name", .str "claude-ai"), ("version", .str "0.1.0")])]

/-! ## Claim C1 — decoding the empty object -/

/-- Claim C1 counterexample: decoding the text `{}` does not yield a
Notification — the untagged deserialiser tries Response first and the
all-defaulted Response accepts the empty object, so the claim's
conclusion fails at its own input. -/
theorem C1_empty_object_not_notification :
    (from_str "\x7b\x7d").map isNotification = some false := by rfl

/-- Claim C1 (amended): decoding the text `{}` yields a Response with
`id = 0`, `result` and `error` absent, and `jsonrpc = "2.0"`, because
discrimination tries Response first and all of Response's fields are
defaulted. -/
theorem C1_empty_object_decodes_as_response :
    from_str "\x7b\x7d" = some (.response ⟨0, none, none, ⟨"2.0"⟩⟩) := by rfl

/-! ## Claim C2 — discrimination of the initialize line -/

/-- Claim C2: the line
`{"method":"initialize","params":{...},"jsonrpc":"2.0","id":0}` decodes
to the Request variant with `id = 0` and `method = "initialize"`, and
the same object without the `id` field decodes to the Notification
variant. -/
theorem C2_initialize_discrimination :
    from_str "\x7b\"method\":\"initialize\",\"params\":\x7b\"protocolVersion\":\"2024-11-05\",\"capabilities\":\x7b\x7d,\"clientInfo\":\x7b\"name\":\"claude-ai\",\"version\":\"0.1.0\"\x7d\x7d,\"jsonrpc\":\"2.0\",\"id\":0\x7d"
      = some (.request ⟨0, "initialize", some initializeParams, ⟨"2.0"⟩⟩) ∧
    from_str "\x7b\"method\":\"initialize\",\"params\":\x7b\"protocolVersion\":\"2024-11-05\",\"capabilities\":\x7b\x7d,\"clientInfo\":\x7b\"name\":\"claude-ai\",\"version\":\"0.1.0\"\x7d\x7d,\"jsonrpc\":\"2.0\"\x7d"
      = some (.notification ⟨"initialize", some initializeParams, ⟨"2.0"⟩⟩) := by
  exact ⟨rfl, rfl⟩

/-! ## Claim C4 — behaviour of receive at end-of-input -/

/-- Claim C4 counterexample: with the input stream at end-of-input the
stdio transport's receive does NOT fail with the I/O (`ChannelFailure`)
error the claim demands. -/
theorem C4_eof_not_channel_failure :
    StdioTransport.receive "" ≠ .error .channelFailure := by
  have h : StdioTransport.receive "" = .error .malformedMessage := rfl
  rw [h]
  intro hcontra
  exact absurd (Except.error.inj hcontra) (by decide)

/-- Claim C4 (amended): at end-of-input `read_line` reads zero bytes
without raising an I/O error, so receive fails when the empty line is
decoded — a `MalformedMessage` (decode) error, not a `ChannelFailure`
(I/O) error. -/
theorem C4_eof_is_malformed_message :
    read_line "" = ("", "") ∧
    StdioTransport.receive "" = .error .malformedMessage := by
  exact ⟨rfl, rfl⟩

/-! ## Claim C6 — exact bytes written by send -/

/-- Claim C6: sending the Response with `id = 1`, `result = "ok"`, no
error and the default version writes exactly the bytes
`{"id":1,"result":"ok","jsonrpc":"2.0"}` followed by a single newline
to standard output, flushes the stream before returning (the pending
buffer is left empty), and returns success. -/
theorem C6_send_response_exact_bytes (w : OutputStream) :
    StdioTransport.send (.response ⟨1, some (.str "ok"), none, ⟨"2.0"⟩⟩) w =
      .ok ⟨w.flushed ++ w.pending ++
        "\x7b\"id\":1,\"result\":\"ok\",\"jsonrpc\":\"2.0\"\x7d" ++ "\n", ""⟩ := by
  have hser :
      to_string (.response ⟨1, some (.str "ok"), none, ⟨"2.0"⟩⟩) =
        "\x7b\"id\":1,\"result\":\"ok\",\"jsonrpc\":\"2.0\"\x7d" := by rfl
  simp only [StdioTransport.send, hser, write_all, flushOut, String.append_assoc]

/-! ## Claim C3 — strict rejection of unknown fields -/

/-- Helper: the Request map deserialiser fails whenever the field list
contains a key outside its field set, whatever the accumulator state. -/
theorem decodeRequestMap_unknown_key (k : String) (v : Json)
    (h1 : k ≠ "id") (h2 : k ≠ "method") (h3 : k ≠ "params") (h4 : k ≠ "jsonrpc") :
    ∀ ms a b c d, (k, v) ∈ ms → decodeRequestMap ms a b c d = none := by
  intro ms
  induction ms with
  | nil => intro a b c d h; exact absurd h (List.not_mem_nil _)
  | cons hd tl ih =>
    obtain ⟨k1, v1⟩ := hd
    intro a b c d h
    rcases List.mem_cons.mp h with heq | hmem
    · injection heq with hek hev
      subst hek
      simp only [decodeRequestMap]
      rw [if_neg h1, if_neg h2, if_neg h3, if_neg h4]
    · simp only [decodeRequestMap]
      repeat' split
      all_goals first | rfl | exact ih _ _ _ _ hmem

/-- Helper: the Response map deserialiser fails whenever the field list
contains a key outside its field set. -/
theorem decodeResponseMap_unknown_key (k : String) (v : Json)
    (h1 : k ≠ "id") (h2 : k ≠ "result") (h3 : k ≠ "error") (h4 : k ≠ "jsonrpc") :
    ∀ ms a b c d, (k, v) ∈ ms → decodeResponseMap ms a b c d = none := by
  intro ms
  induction ms with
  | nil => intro a b c d h; exact absurd h (List.not_mem_nil _)
  | cons hd tl ih =>
    obtain ⟨k1, v1⟩ := hd
    intro a b c d h
    rcases List.mem_cons.mp h with heq | hmem
    · injection heq with hek hev
      subst hek
      simp only [decodeResponseMap]
      rw [if_neg h1, if_neg h2, if_neg h3, if_neg h4]
    · simp only [decodeResponseMap]
      repeat' split
      all_goals first | rfl | exact ih _ _ _ _ hmem

/-- Helper: the Notification map deserialiser fails whenever the field
list contains a key outside its field set. -/
theorem decodeNotificationMap_unknown_key (k : String) (v : Json)
    (h1 : k ≠ "method") (h2 : k ≠ "params") (h3 : k ≠ "jsonrpc") :
    ∀ ms a b c, (k, v) ∈ ms → decodeNotificationMap ms a b c = none := by
  intro ms
  induction ms with
  | nil => intro a b c h; exact absurd h (List.not_mem_nil _)
  | cons hd tl ih =>
    obtain ⟨k1, v1⟩ := hd
    intro a b c h
    rcases List.mem_cons.mp h with heq | hmem
    · injection heq with hek hev
      subst hek
      simp only [decodeNotificationMap]
      rw [if_neg h1, if_neg h2, if_neg h3]
    · simp only [decodeNotificationMap]
      repeat' split
      all_goals first | rfl | exact ih _ _ _ hmem

/-- Claim C3 counterexample: a Response whose nested Error object
carries an unrecognised field (`bogus`) is NOT rejected — `JsonRpcError`
is the one struct without `deny_unknown_fields`, so the extra field is
silently ignored and decode succeeds. -/
theorem C3_nested_error_unknown_field_accepted :
    from_str "\x7b\"id\":1,\"error\":\x7b\"code\":5,\"message\":\"boom\",\"bogus\":true\x7d,\"jsonrpc\":\"2.0\"\x7d"
      = some (.response ⟨1, none, some ⟨5, "boom", none⟩, ⟨"2.0"⟩⟩) := by rfl

/-- Claim C3 (amended): an object containing a TOP-LEVEL field outside
the field set of every variant is rejected by all three variants and so
fails decode — in particular
`{"method":"x","jsonrpc":"2.0","id":1,"bogus":true}` fails — but a
field inside the nested Error object that Error does not recognise is
ignored rather than rejected. -/
theorem C3_unknown_top_level_field_rejected :
    (∀ ms k v, (k, v) ∈ ms → k ∉ knownKeys → decodeMessage (.obj ms) = none) ∧
    from_str "\x7b\"method\":\"x\",\"jsonrpc\":\"2.0\",\"id\":1,\"bogus\":true\x7d" = none := by
  constructor
  · intro ms k v hmem hk
    simp only [knownKeys, List.mem_cons, List.not_mem_nil, or_false] at hk
    push_neg at hk
    obtain ⟨h1, h2, h3, h4, h5, h6⟩ := hk
    have hr : decodeResponseMap ms none none none none = none :=
      decodeResponseMap_unknown_key k v h1 h5 h6 h4 ms none none none none hmem
    have hq : decodeRequestMap ms none none none none = none :=
      decodeRequestMap_unknown_key k v h1 h2 h3 h4 ms none none none none hmem
    have hn : decodeNotificationMap ms none none none = none :=
      decodeNotificationMap_unknown_key k v h2 h3 h4 ms none none none hmem
    simp [decodeMessage, decodeResponse, decodeRequest, decodeNotification, hr, hq, hn]
  · rfl

/-- Claim C3 witness: instantiation of the amended claim's universal
part at the concrete object with a single key `bogus`. -/
theorem C3_unknown_top_level_field_witness :
    decodeMessage (.obj [("bogus", .bool true)]) = none :=
  C3_unknown_top_level_field_rejected.1 [("bogus", .bool true)] "bogus" (.bool true)
    (List.mem_singleton.mpr rfl) (by decide)

/-! ## Claim C8 — Request has no defaults, Notification and Response do -/

/-- Helper: the Request map deserialiser fails when the field list has
no `id` key (the `id` accumulator can never be filled). -/
theorem decodeRequestMap_missing_id :
    ∀ ms b c d, "id" ∉ ms.map Prod.fst → decodeRequestMap ms none b c d = none := by
  intro ms
  induction ms with
  | nil => intro b c d _; rfl
  | cons hd tl ih =>
    obtain ⟨k1, v1⟩ := hd
    intro b c d hk
    simp only [List.map_cons, List.mem_cons] at hk
    push_neg at hk
    obtain ⟨hk1, hk2⟩ := hk
    simp only [decodeRequestMap]
    rw [if_neg (fun he => hk1 he.symm)]
    repeat' split
    all_goals first | rfl | exact ih _ _ _ hk2

/-- Helper: the Request map deserialiser fails when the field list has
no `method` key. -/
theorem decodeRequestMap_missing_method :
    ∀ ms a c d, "method" ∉ ms.map Prod.fst → decodeRequestMap ms a none c d = none := by
  intro ms
  induction ms with
  | nil =>
    intro a c d _
    rcases a with _ | av <;> rfl
  | cons hd tl ih =>
    obtain ⟨k1, v1⟩ := hd
    intro a c d hk
    simp only [List.map_cons, List.mem_cons] at hk
    push_neg at hk
    obtain ⟨hk1, hk2⟩ := hk
    simp only [decodeRequestMap]
    repeat' split
    all_goals first | rfl | exact ih _ _ _ hk2 | exact absurd (by assumption : k1 = "method") (fun he => hk1 he.symm)

/-- Helper: the Request map deserialiser fails when the field list has
no `jsonrpc` key. -/
theorem decodeRequestMap_missing_jsonrpc :
    ∀ ms a b c, "jsonrpc" ∉ ms.map Prod.fst → decodeRequestMap ms a b c none = none := by
  intro ms
  induction ms with
  | nil =>
    intro a b c _
    rcases a with _ | av <;> rcases b with _ | bv <;> rfl
  | cons hd tl ih =>
    obtain ⟨k1, v1⟩ := hd
    intro a b c hk
    simp only [List.map_cons, List.mem_cons] at hk
    push_neg at hk
    obtain ⟨hk1, hk2⟩ := hk
    simp only [decodeRequestMap]
    repeat' split
    all_goals first | rfl | exact ih _ _ _ hk2 | exact absurd (by assumption : k1 = "jsonrpc") (fun he => hk1 he.symm)

/-- Claim C8: decoding defaults exist only for the Notification and
Response shapes (the empty object decodes under both, with
`jsonrpc = "2.0"`), while the Request shape fails decode whenever `id`,
`method` or `jsonrpc` is missing. -/
theorem C8_request_has_no_defaults :
    (∀ ms, "id" ∉ ms.map Prod.fst → decodeRequest (.obj ms) = none) ∧
    (∀ ms, "method" ∉ ms.map Prod.fst → decodeRequest (.obj ms) = none) ∧
    (∀ ms, "jsonrpc" ∉ ms.map Prod.fst → decodeRequest (.obj ms) = none) ∧
    decodeNotification (.obj []) = some ⟨"", none, ⟨"2.0"⟩⟩ ∧
    decodeResponse (.obj []) = some ⟨0, none, none, ⟨"2.0"⟩⟩ := by
  refine ⟨fun ms hk => ?_, fun ms hk => ?_, fun ms hk => ?_, rfl, rfl⟩
  · exact decodeRequestMap_missing_id ms none none none hk
  · exact decodeRequestMap_missing_method ms none none none hk
  · exact decodeRequestMap_missing_jsonrpc ms none none none hk

/-- Claim C8 witness: concrete objects each missing one of the three
required Request fields all fail to decode as a Request. -/
theorem C8_request_has_no_defaults_witness :
    decodeRequest (.obj [("method", .str "m"), ("jsonrpc", .str "2.0")]) = none ∧
    decodeRequest (.obj [("id", .num 1), ("jsonrpc", .str "2.0")]) = none ∧
    decodeRequest (.obj [("id", .num 1), ("method", .str "m")]) = none :=
  ⟨C8_request_has_no_defaults.1 _ (by decide),
   C8_request_has_no_defaults.2.1 _ (by decide),
   C8_request_has_no_defaults.2.2.1 _ (by decide)⟩

/-! ## Claim C9 — JSON arrays -/

/-- Claim C9 counterexample: the line `[]` — a JSON array — does NOT
fail decode: serde structs also deserialise from sequences, and the
all-defaulted Response accepts the empty sequence, so `[]` decodes to
the default Response. -/
theorem C9_empty_array_decodes :
    from_str "[]" = some (.response ⟨0, none, none, ⟨"2.0"⟩⟩) := by rfl

/-- Claim C9 (amended): arrays are not categorically rejected — an
array whose elements line up positionally with a variant's fields
decodes (the empty array decodes to the all-defaults Response) — but
any array whose first element is itself a JSON object, in particular
every array of otherwise-valid messages (a JSON-RPC batch), fails
decode. -/
theorem C9_batch_arrays_fail :
    (∀ ms rest, decodeMessage (.arr (.obj ms :: rest)) = none) ∧
    decodeMessage (.arr []) = some (.response ⟨0, none, none, ⟨"2.0"⟩⟩) := by
  refine ⟨fun ms rest => ?_, rfl⟩
  rcases rest with _ | ⟨b, _ | ⟨c, _ | ⟨d, _ | ⟨e, rest⟩⟩⟩⟩ <;> rfl

/-! ## Claim C10 — no validation of the version string -/

/-- Claim C10: decode performs no validation of the `jsonrpc` string:
for each variant shape, an arbitrary version string (for example `"1.0"`
or `""`) is accepted and preserved verbatim in the decoded message. -/
theorem C10_version_string_not_validated (s : String) :
    decodeMessage (.obj [("id", .num 1), ("method", .str "x"), ("jsonrpc", .str s)])
      = some (.request ⟨1, "x", none, ⟨s⟩⟩) ∧
    decodeMessage (.obj [("method", .str "x"), ("jsonrpc", .str s)])
      = some (.notification ⟨"x", none, ⟨s⟩⟩) ∧
    decodeMessage (.obj [("jsonrpc", .str s)])
      = some (.response ⟨0, none, none, ⟨s⟩⟩) := by
  exact ⟨rfl, rfl, rfl⟩

/-! ## Claim C7 — absent optional fields are omitted, not null -/

/-- Claim C7: serialisation omits every absent optional field —
`params` on Request and Notification, `result` and `error` on Response,
`data` on Error — from the output object entirely (the key is not
present at all, hence in particular not emitted as `null`). -/
theorem C7_absent_optionals_omitted :
    (∀ r : JsonRpcRequest, r.params = none → "params" ∉ objKeys (encodeRequest r)) ∧
    (∀ n : JsonRpcNotification, n.params = none → "params" ∉ objKeys (encodeNotification n)) ∧
    (∀ r : JsonRpcResponse, r.result = none → "result" ∉ objKeys (encodeResponse r)) ∧
    (∀ r : JsonRpcResponse, r.error = none → "error" ∉ objKeys (encodeResponse r)) ∧
    (∀ e : JsonRpcError, e.data = none → "data" ∉ objKeys (encodeError e)) := by
  refine ⟨fun r h => ?_, fun n h => ?_, fun r h => ?_, fun r h => ?_, fun e h => ?_⟩
  · simp [encodeRequest, optField, h, objKeys]
  · simp [encodeNotification, optField, h, objKeys]
  · rcases herr : r.error with _ | ev <;>
      simp [encodeResponse, optField, h, herr, objKeys]
  · rcases hres : r.result with _ | rv <;>
      simp [encodeResponse, optField, h, hres, objKeys]
  · simp [encodeError, optField, h, objKeys]

/-- Claim C7 witness: instantiation of each conjunct at a concrete
value with the optional field absent. -/
theorem C7_absent_optionals_omitted_witness :
    "params" ∉ objKeys (encodeRequest ⟨1, "m", none, ⟨"2.0"⟩⟩) ∧
    "params" ∉ objKeys (encodeNotification ⟨"m", none, ⟨"2.0"⟩⟩) ∧
    "result" ∉ objKeys (encodeResponse ⟨1, none, none, ⟨"2.0"⟩⟩) ∧
    "error" ∉ objKeys (encodeResponse ⟨1, none, none, ⟨"2.0"⟩⟩) ∧
    "data" ∉ objKeys (encodeError ⟨0, "m", none⟩) :=
  ⟨C7_absent_optionals_omitted.1 _ rfl,
   C7_absent_optionals_omitted.2.1 _ rfl,
   C7_absent_optionals_omitted.2.2.1 _ rfl,
   C7_absent_optionals_omitted.2.2.2.1 _ rfl,
   C7_absent_optionals_omitted.2.2.2.2 _ rfl⟩

/-! ## The text layer: parsing inverts rendering -/

/-- `Char.ofNat` followed by `Char.toNat` is the identity on valid code points. -/
theorem toNat_ofNat_valid (n : Nat) (h : n.isValidChar) : (Char.ofNat n).toNat = n := by
  simp [Char.ofNat, h, Char.toNat, Char.ofNatAux, UInt32.toNat, BitVec.toNat_ofNatLt]

/-- `Char.ofNat` followed by `Char.toNat` is the identity below 128. -/
theorem toNat_ofNat_small (n : Nat) (h : n < 128) : (Char.ofNat n).toNat = n :=
  toNat_ofNat_valid n (Or.inl (by omega))

/-- Characters with different code points are different. -/
theorem char_ne_of_toNat_ne (a b : Char) (h : a.toNat ≠ b.toNat) : a ≠ b :=
  fun he => h (by rw [he])

/-- `Char.isDigit` through the code point, as `takeDigits` compares. -/
theorem isDigit_eq_true_iff (c : Char) :
    c.isDigit = true ↔ 48 ≤ c.toNat ∧ c.toNat ≤ 57 := by
  simp only [Char.isDigit, Bool.and_eq_true, decide_eq_true_eq, Char.le_def,
    UInt32.le_def]
  exact Iff.rfl

/-- Appending a digit multiplies the accumulated value by ten. -/
theorem digitsToNat_append_singleton (xs : List Char) (c : Char) :
    digitsToNat (xs ++ [c]) = digitsToNat xs * 10 + (c.toNat - 48) := by
  simp [digitsToNat, List.foldl_append]

/-- The digits `renderNatDigits` emits (with enough fuel) are non-empty,
all decimal, and evaluate back to the rendered number. -/
theorem renderNatDigits_spec : ∀ fuel m, m ≤ fuel →
    renderNatDigits (fuel + 1) m ≠ [] ∧
    (∀ c ∈ renderNatDigits (fuel + 1) m, 48 ≤ c.toNat ∧ c.toNat ≤ 57) ∧
    digitsToNat (renderNatDigits (fuel + 1) m) = m := by
  intro fuel
  induction fuel with
  | zero =>
    intro m hm
    have hm0 : m = 0 := by omega
    subst hm0
    exact ⟨by decide, by decide, by decide⟩
  | succ f ih =>
    intro m hm
    by_cases h10 : m < 10
    · rw [renderNatDigits, if_pos h10]
      refine ⟨by simp, ?_, ?_⟩
      · intro c hc
        simp only [List.mem_singleton] at hc
        subst hc
        rw [toNat_ofNat_small (48 + m) (by omega)]
        omega
      · simp only [digitsToNat, List.foldl_cons, List.foldl_nil,
          toNat_ofNat_small (48 + m) (by omega)]
        omega
    · rw [renderNatDigits, if_neg h10]
      obtain ⟨hne, hdig, hval⟩ := ih (m / 10) (by omega)
      refine ⟨by simp, ?_, ?_⟩
      · intro c hc
        rcases List.mem_append.mp hc with h | h
        · exact hdig c h
        · simp only [List.mem_singleton] at h
          subst h
          rw [toNat_ofNat_small (48 + m % 10) (by omega)]
          omega
      · rw [digitsToNat_append_singleton, hval,
          toNat_ofNat_small (48 + m % 10) (by omega)]
        omega

/-- `takeDigits` consumes exactly a digit run when the first character
after it cannot extend a number literal. -/
theorem takeDigits_append (ds rest : List Char)
    (hds : ∀ c ∈ ds, 48 ≤ c.toNat ∧ c.toNat ≤ 57)
    (hrest : StopRest rest) :
    takeDigits (ds ++ rest) = (ds, rest) := by
  induction ds with
  | nil =>
    simp only [List.nil_append]
    rcases rest with _ | ⟨c, cs⟩
    · rfl
    · rcases hrest with h | h | h <;> subst h <;> rfl
  | cons d ds' ih =>
    have hd := hds d (List.mem_cons_self d ds')
    have hdd : d.isDigit = true := (isDigit_eq_true_iff d).mpr hd
    rw [List.cons_append, takeDigits, if_pos hdd,
      ih (fun c hc => hds c (List.mem_cons_of_mem d hc))]

/-- `parseNumber` on a minus sign and a digit run recovers the negated value. -/
theorem parseNumber_neg_digits (ds rest : List Char) (hne : ds ≠ [])
    (hdig : ∀ c ∈ ds, 48 ≤ c.toNat ∧ c.toNat ≤ 57) (hr : StopRest rest) :
    parseNumber ('-' :: (ds ++ rest))
      = some (.num (-(Int.ofNat (digitsToNat ds))), rest) := by
  obtain ⟨d, ds', rfl⟩ := List.exists_cons_of_ne_nil hne
  simp only [parseNumber, if_pos trivial, eq_self_iff_true, ite_true]
  rw [takeDigits_append _ rest hdig hr]
  rcases rest with _ | ⟨c, cs⟩
  · rfl
  · rcases hr with h | h | h <;> subst h <;> rfl

/-- `parseNumber` on a digit run recovers its value. -/
theorem parseNumber_digits (ds rest : List Char) (hne : ds ≠ [])
    (hdig : ∀ c ∈ ds, 48 ≤ c.toNat ∧ c.toNat ≤ 57) (hr : StopRest rest) :
    parseNumber (ds ++ rest)
      = some (.num (Int.ofNat (digitsToNat ds)), rest) := by
  obtain ⟨d, ds', rfl⟩ := List.exists_cons_of_ne_nil hne
  have hd45 : d ≠ '-' := by
    refine char_ne_of_toNat_ne d '-' ?_
    have := (hdig d (List.mem_cons_self d ds')).1
    simp only [show ('-').toNat = 45 from rfl]
    omega
  simp only [parseNumber, List.cons_append, if_neg hd45]
  rw [show (d :: (ds' ++ rest)) = (d :: ds') ++ rest from rfl,
    takeDigits_append _ rest hdig hr]
  rcases rest with _ | ⟨c, cs⟩
  · rfl
  · rcases hr with h | h | h <;> subst h <;> rfl

/-- The number parser inverts the integer renderer. -/
theorem parseNumber_renderInt (n : Int) (rest : List Char) (hr : StopRest rest) :
    parseNumber ((renderInt n).data ++ rest) = some (.num n, rest) := by
  by_cases hneg : n < 0
  · obtain ⟨hne, hdig, hval⟩ := renderNatDigits_spec n.natAbs n.natAbs (le_refl _)
    have hdata : (renderInt n).data
        = '-' :: renderNatDigits (n.natAbs + 1) n.natAbs := by
      rw [renderInt, if_pos hneg, String.data_append]
      rfl
    rw [hdata, List.cons_append, parseNumber_neg_digits _ rest hne hdig hr, hval]
    have h2 : (-(Int.ofNat n.natAbs) : Int) = n := by
      simp only [Int.ofNat_eq_natCast]
      omega
    rw [h2]
  · obtain ⟨hne, hdig, hval⟩ := renderNatDigits_spec n.toNat n.toNat (le_refl _)
    have hdata : (renderInt n).data = renderNatDigits (n.toNat + 1) n.toNat := by
      rw [renderInt, if_neg hneg]
    rw [hdata, parseNumber_digits _ rest hne hdig hr, hval]
    have h2 : (Int.ofNat n.toNat : Int) = n := by
      simp only [Int.ofNat_eq_natCast]
      omega
    rw [h2]

/-- `hexDigitVal` inverts the lower-case hex digit renderer. -/
theorem hexDigitVal_hexChar (n : Nat) (h : n < 16) :
    hexDigitVal (hexChar n) = some n := by
  by_cases h10 : n < 10
  · rw [hexChar, if_pos h10]
    have ht : (Char.ofNat ('0'.toNat + n)).toNat = 48 + n := by
      rw [show ('0').toNat = 48 from rfl]
      exact toNat_ofNat_small _ (by omega)
    rw [hexDigitVal, ht, if_pos (by omega : 48 ≤ 48 + n ∧ 48 + n ≤ 57)]
    congr 1
    omega
  · rw [hexChar, if_neg h10]
    have ht : (Char.ofNat ('a'.toNat + n - 10)).toNat = 87 + n := by
      rw [show ('a').toNat = 97 from rfl]
      have he : 97 + n - 10 = 87 + n := by omega
      rw [he]
      exact toNat_ofNat_small _ (by omega)
    rw [hexDigitVal, ht, if_neg (by omega : ¬(48 ≤ 87 + n ∧ 87 + n ≤ 57)),
      if_pos (by omega : 97 ≤ 87 + n ∧ 87 + n ≤ 102)]
    congr 1
    omega

/-- String-body step: an escaped quote. -/
theorem psb_step_quote (r acc : List Char) :
    parseStringBody ('\\' :: '"' :: r) acc = parseStringBody r ('"' :: acc) := by
  rw [parseStringBody.eq_def]
  rfl

/-- String-body step: an escaped backslash. -/
theorem psb_step_backslash (r acc : List Char) :
    parseStringBody ('\\' :: '\\' :: r) acc = parseStringBody r ('\\' :: acc) := by
  rw [parseStringBody.eq_def]
  rfl

/-- String-body step: an escaped newline. -/
theorem psb_step_newline (r acc : List Char) :
    parseStringBody ('\\' :: 'n' :: r) acc = parseStringBody r ('\n' :: acc) := by
  rw [parseStringBody.eq_def]
  rfl

/-- String-body step: an escaped carriage return. -/
theorem psb_step_cr (r acc : List Char) :
    parseStringBody ('\\' :: 'r' :: r) acc = parseStringBody r ('\r' :: acc) := by
  rw [parseStringBody.eq_def]
  rfl

/-- String-body step: an escaped tab. -/
theorem psb_step_tab (r acc : List Char) :
    parseStringBody ('\\' :: 't' :: r) acc = parseStringBody r ('\t' :: acc) := by
  rw [parseStringBody.eq_def]
  rfl

/-- String-body step: an escaped backspace. -/
theorem psb_step_bs (r acc : List Char) :
    parseStringBody ('\\' :: 'b' :: r) acc = parseStringBody r ('\x08' :: acc) := by
  rw [parseStringBody.eq_def]
  rfl

/-- String-body step: an escaped form feed. -/
theorem psb_step_ff (r acc : List Char) :
    parseStringBody ('\\' :: 'f' :: r) acc = parseStringBody r ('\x0c' :: acc) := by
  rw [parseStringBody.eq_def]
  rfl

/-- String-body step: a `\u00..` escape for a control character. -/
theorem parseStringBody_u_step (a b : Nat) (ha : a < 16) (hb : b < 16)
    (r acc : List Char) :
    parseStringBody ('\\' :: 'u' :: '0' :: '0' :: hexChar a :: hexChar b :: r) acc
      = parseStringBody r (Char.ofNat (a * 16 + b) :: acc) := by
  have h1 : hexDigitVal (hexChar a) = some a := hexDigitVal_hexChar a ha
  have h2 : hexDigitVal (hexChar b) = some b := hexDigitVal_hexChar b hb
  rw [parseStringBody.eq_def]
  show (match hexDigitVal '0', hexDigitVal '0', hexDigitVal (hexChar a),
      hexDigitVal (hexChar b) with
    | some a2, some b2, some c2, some d2 =>
      parseStringBody r (Char.ofNat (((a2 * 16 + b2) * 16 + c2) * 16 + d2) :: acc)
    | _, _, _, _ => none) = parseStringBody r (Char.ofNat (a * 16 + b) :: acc)
  rw [h1, h2, show hexDigitVal '0' = some 0 from rfl]
  show parseStringBody r (Char.ofNat (((0 * 16 + 0) * 16 + a) * 16 + b) :: acc)
    = parseStringBody r (Char.ofNat (a * 16 + b) :: acc)
  have he : ((0 * 16 + 0) * 16 + a) * 16 + b = a * 16 + b := by omega
  rw [he]

/-- The string-body parser inverts the character escaper: the escaped
body followed by the closing quote parses back to the original characters. -/
theorem parseStringBody_escapeList (cs : List Char) : ∀ rest acc,
    parseStringBody (escapeList cs ++ '"' :: rest) acc
      = some (String.mk (acc.reverse ++ cs), rest) := by
  induction cs with
  | nil =>
    intro rest acc
    rw [escapeList, List.nil_append, List.append_nil, parseStringBody.eq_def]
    rfl
  | cons c cs' ih =>
    intro rest acc
    rw [escapeList, List.append_assoc]
    unfold escapeChar
    split_ifs with h1 h2 h3 h4 h5 h6 h7 h8
    · subst h1
      rw [show ("\\\"").data = ['\\', '"'] from rfl]
      simp only [List.cons_append, List.nil_append]
      rw [psb_step_quote, ih rest ('"' :: acc)]
      simp [List.append_assoc]
    · subst h2
      rw [show ("\\\\").data = ['\\', '\\'] from rfl]
      simp only [List.cons_append, List.nil_append]
      rw [psb_step_backslash, ih rest ('\\' :: acc)]
      simp [List.append_assoc]
    · subst h3
      rw [show ("\\n").data = ['\\', 'n'] from rfl]
      simp only [List.cons_append, List.nil_append]
      rw [psb_step_newline, ih rest ('\n' :: acc)]
      simp [List.append_assoc]
    · subst h4
      rw [show ("\\r").data = ['\\', 'r'] from rfl]
      simp only [List.cons_append, List.nil_append]
      rw [psb_step_cr, ih rest ('\r' :: acc)]
      simp [List.append_assoc]
    · subst h5
      rw [show ("\\t").data = ['\\', 't'] from rfl]
      simp only [List.cons_append, List.nil_append]
      rw [psb_step_tab, ih rest ('\t' :: acc)]
      simp [List.append_assoc]
    · subst h6
      rw [show ("\\b").data = ['\\', 'b'] from rfl]
      simp only [List.cons_append, List.nil_append]
      rw [psb_step_bs, ih rest ('\x08' :: acc)]
      simp [List.append_assoc]
    · subst h7
      rw [show ("\\f").data = ['\\', 'f'] from rfl]
      simp only [List.cons_append, List.nil_append]
      rw [psb_step_ff, ih rest ('\x0c' :: acc)]
      simp [List.append_assoc]
    · rw [show (String.mk ['\\', 'u', '0', '0', hexChar (c.toNat / 16),
        hexChar (c.toNat % 16)]).data = ['\\', 'u', '0', '0', hexChar (c.toNat / 16),
        hexChar (c.toNat % 16)] from rfl]
      simp only [List.cons_append, List.nil_append]
      rw [parseStringBody_u_step (c.toNat / 16) (c.toNat % 16) (by omega) (by omega)]
      have hc : Char.ofNat (c.toNat / 16 * 16 + c.toNat % 16) = c := by
        have he : c.toNat / 16 * 16 + c.toNat % 16 = c.toNat := by omega
        rw [he, Char.ofNat_toNat]
      rw [hc, ih rest (c :: acc)]
      simp [List.append_assoc]
    · rw [show (String.singleton c).data = [c] from rfl, List.singleton_append,
        parseStringBody.eq_def]
      dsimp only
      rw [if_neg h1, if_neg h2, if_neg (by omega : ¬c.toNat < 32), ih rest (c :: acc)]
      simp [List.append_assoc]

/-- Every value needs at least one unit of parser fuel. -/
theorem fuelValue_pos (v : Json) : 1 ≤ fuelValue v := by
  cases v <;> simp only [fuelValue] <;> omega

/-- The element fuel dominates the fuel of the first element. -/
theorem fuelElems_cons_value_le (x : Json) (xs : List Json) :
    fuelValue x + 1 ≤ fuelElems (x :: xs) := by
  rw [fuelElems]
  have := Nat.le_max_left (fuelValue x) (fuelElems xs)
  omega

/-- The element fuel dominates the fuel of the remaining elements. -/
theorem fuelElems_cons_rest_le (x : Json) (xs : List Json) :
    fuelElems xs + 1 ≤ fuelElems (x :: xs) := by
  rw [fuelElems]
  have := Nat.le_max_right (fuelValue x) (fuelElems xs)
  omega

/-- The member fuel dominates the fuel of the first member value. -/
theorem fuelMembers_cons_value_le (k : String) (v : Json) (ms : List (String × Json)) :
    fuelValue v + 1 ≤ fuelMembers ((k, v) :: ms) := by
  rw [fuelMembers]
  have := Nat.le_max_left (fuelValue v) (fuelMembers ms)
  omega

/-- The member fuel dominates the fuel of the remaining members. -/
theorem fuelMembers_cons_rest_le (k : String) (v : Json) (ms : List (String × Json)) :
    fuelMembers ms + 1 ≤ fuelMembers ((k, v) :: ms) := by
  rw [fuelMembers]
  have := Nat.le_max_right (fuelValue v) (fuelMembers ms)
  omega

/-- `skipWs` leaves input that starts with a non-whitespace character alone. -/
theorem skipWs_cons_notWs (c : Char) (cs : List Char)
    (h : ¬(c = ' ' ∨ c = '\t' ∨ c = '\n' ∨ c = '\r')) :
    skipWs (c :: cs) = c :: cs := by
  rw [skipWs, if_neg h]

/-- The characters of a rendered `null`. -/
theorem render_null_data : (render .null).data = ['n', 'u', 'l', 'l'] := rfl

/-- The characters of a rendered `true`. -/
theorem render_true_data : (render (.bool true)).data = ['t', 'r', 'u', 'e'] := rfl

/-- The characters of a rendered `false`. -/
theorem render_false_data : (render (.bool false)).data = ['f', 'a', 'l', 's', 'e'] := rfl

/-- Rendering a number value is integer rendering. -/
theorem render_num_eq (n : Int) : render (.num n) = renderInt n := rfl

/-- The characters of a rendered string literal. -/
theorem render_str_data (s : String) :
    (render (.str s)).data = '"' :: (escapeList s.data ++ ['"']) := rfl

/-- The characters of a rendered array. -/
theorem render_arr_data (xs : List Json) :
    (render (.arr xs)).data = '[' :: ((renderArr xs).data ++ [']']) := rfl

/-- The characters of a rendered object. -/
theorem render_obj_data (ms : List (String × Json)) :
    (render (.obj ms)).data = '\x7b' :: ((renderObj ms).data ++ ['\x7d']) := rfl

/-- A rendered integer starts with a minus sign or a decimal digit. -/
theorem renderInt_head (n : Int) : ∃ c ts, (renderInt n).data = c :: ts ∧
    (c.toNat = 45 ∨ (48 ≤ c.toNat ∧ c.toNat ≤ 57)) := by
  by_cases hneg : n < 0
  · refine ⟨'-', renderNatDigits (n.natAbs + 1) n.natAbs, ?_, Or.inl rfl⟩
    rw [renderInt, if_pos hneg, String.data_append]
    rfl
  · obtain ⟨hne, hdig, _⟩ := renderNatDigits_spec n.toNat n.toNat (le_refl _)
    obtain ⟨d, ds, hds⟩ := List.exists_cons_of_ne_nil hne
    refine ⟨d, ds, ?_, Or.inr ?_⟩
    · rw [renderInt, if_neg hneg]
      exact hds
    · exact hdig d (hds ▸ List.mem_cons_self d ds)

/-- Every rendered value starts with one of the token-leading
characters: a keyword letter, a quote, a bracket, a brace, a minus sign or
a digit — never whitespace, a separator or a closing bracket. -/
theorem render_head (v : Json) : ∃ c ts, (render v).data = c :: ts ∧
    (c.toNat = 110 ∨ c.toNat = 116 ∨ c.toNat = 102 ∨ c.toNat = 34 ∨
     c.toNat = 91 ∨ c.toNat = 123 ∨ c.toNat = 45 ∨
     (48 ≤ c.toNat ∧ c.toNat ≤ 57)) := by
  cases v with
  | null => exact ⟨'n', ['u', 'l', 'l'], rfl, Or.inl rfl⟩
  | bool b =>
    cases b with
    | true => exact ⟨'t', ['r', 'u', 'e'], rfl, Or.inr (Or.inl rfl)⟩
    | false => exact ⟨'f', ['a', 'l', 's', 'e'], rfl, Or.inr (Or.inr (Or.inl rfl))⟩
  | num n =>
    obtain ⟨c, ts, hd, hp⟩ := renderInt_head n
    exact ⟨c, ts, hd, Or.inr (Or.inr (Or.inr (Or.inr (Or.inr (Or.inr hp)))))⟩
  | str s =>
    exact ⟨'"', escapeList s.data ++ ['"'], rfl,
      Or.inr (Or.inr (Or.inr (Or.inl rfl)))⟩
  | arr xs =>
    exact ⟨'[', (renderArr xs).data ++ [']'], rfl,
      Or.inr (Or.inr (Or.inr (Or.inr (Or.inl rfl))))⟩
  | obj ms =>
    exact ⟨'\x7b', (renderObj ms).data ++ ['\x7d'], rfl,
      Or.inr (Or.inr (Or.inr (Or.inr (Or.inr (Or.inl rfl)))))⟩

/-- A rendered non-empty element list starts with its first element. -/
theorem renderArr_cons_data (x : Json) (xs : List Json) :
    ∃ tl, (renderArr (x :: xs)).data = (render x).data ++ tl := by
  cases xs with
  | nil => exact ⟨[], by rw [renderArr, List.append_nil]⟩
  | cons y ys =>
    refine ⟨',' :: (renderArr (y :: ys)).data, ?_⟩
    rw [renderArr]
    simp [String.data_append]

/-- The characters of a one-member rendered object body. -/
theorem renderObj_single_data (k : String) (v : Json) :
    (renderObj [(k, v)]).data
      = '"' :: (escapeList k.data ++ '"' :: ':' :: (render v).data) := by
  rw [renderObj]
  simp [renderString, String.data_append]

/-- The characters of a rendered object body with two or more members. -/
theorem renderObj_cons2_data (k : String) (v : Json) (m : String × Json)
    (ms : List (String × Json)) :
    (renderObj ((k, v) :: m :: ms)).data
      = '"' :: (escapeList k.data ++ '"' :: ':' ::
          ((render v).data ++ ',' :: (renderObj (m :: ms)).data)) := by
  rw [renderObj]
  simp [renderString, String.data_append]

/-- One step of `parseElements`: after the element value is parsed, the
separator decides between recursing, closing the array and failing. -/
theorem parseElements_step (f : Nat) (cs : List Char) (acc : List Json)
    (v : Json) (rest : List Char) (hv : parseValue f cs = some (v, rest)) :
    parseElements (f + 1) cs acc
      = (match skipWs rest with
        | ',' :: rest2 => parseElements f rest2 (v :: acc)
        | ']' :: rest2 => some (Json.arr (v :: acc).reverse, rest2)
        | _ => none) := by
  rw [parseElements.eq_def]
  show (match parseValue f cs with
        | none => none
        | some (v, rest) =>
          (match skipWs rest with
          | ',' :: rest2 => parseElements f rest2 (v :: acc)
          | ']' :: rest2 => some (Json.arr (v :: acc).reverse, rest2)
          | _ => none)) = _
  rw [hv]

/-- One step of `parseMembers`: after the key string and the member value
are parsed, the separator decides between recursing, closing the object
and failing. -/
theorem parseMembers_quote (f : Nat) (cs : List Char) (acc : List (String × Json))
    (k : String) (rest2 : List Char) (v : Json) (rest3 : List Char)
    (hk : parseStringBody cs [] = some (k, ':' :: rest2))
    (hv : parseValue f rest2 = some (v, rest3)) :
    parseMembers (f + 1) ('"' :: cs) acc
      = (match skipWs rest3 with
        | ',' :: rest4 => parseMembers f (skipWs rest4) ((k, v) :: acc)
        | '\x7d' :: rest4 => some (Json.obj ((k, v) :: acc).reverse, rest4)
        | _ => none) := by
  rw [parseMembers.eq_def]
  show (match parseStringBody cs [] with
        | none => none
        | some (k, rest1) =>
          (match skipWs rest1 with
          | ':' :: rest2 =>
            (match parseValue f rest2 with
            | none => none
            | some (v, rest3) =>
              (match skipWs rest3 with
              | ',' :: rest4 => parseMembers f (skipWs rest4) ((k, v) :: acc)
              | '\x7d' :: rest4 => some (Json.obj ((k, v) :: acc).reverse, rest4)
              | _ => none))
          | _ => none)) = _
  rw [hk]
  show (match skipWs (':' :: rest2) with
        | ':' :: rest2 =>
          (match parseValue f rest2 with
          | none => none
          | some (v, rest3) =>
            (match skipWs rest3 with
            | ',' :: rest4 => parseMembers f (skipWs rest4) ((k, v) :: acc)
            | '\x7d' :: rest4 => some (Json.obj ((k, v) :: acc).reverse, rest4)
            | _ => none))
        | _ => none) = _
  rw [skipWs_cons_notWs _ _ (by decide)]
  show (match parseValue f rest2 with
        | none => none
        | some (v, rest3) =>
          (match skipWs rest3 with
          | ',' :: rest4 => parseMembers f (skipWs rest4) ((k, v) :: acc)
          | '\x7d' :: rest4 => some (Json.obj ((k, v) :: acc).reverse, rest4)
          | _ => none)) = _
  rw [hv]

/-- The fuelled parsers invert the renderer: a rendered value followed by
a legitimate continuation parses back to the value, with any fuel at least
its fuel measure (joint induction on a bound for the measure). -/
theorem parse_render_main (N : Nat) :
    (∀ v fuel rest, fuelValue v ≤ N → fuelValue v ≤ fuel → StopRest rest →
        parseValue fuel ((render v).data ++ rest) = some (v, rest)) ∧
    (∀ x xs fuel rest acc, fuelElems (x :: xs) ≤ N → fuelElems (x :: xs) ≤ fuel →
        StopRest rest →
        parseElements fuel ((renderArr (x :: xs)).data ++ ']' :: rest) acc
          = some (Json.arr (acc.reverse ++ x :: xs), rest)) ∧
    (∀ k v ms fuel rest acc, fuelMembers ((k, v) :: ms) ≤ N →
        fuelMembers ((k, v) :: ms) ≤ fuel → StopRest rest →
        parseMembers fuel ((renderObj ((k, v) :: ms)).data ++ '\x7d' :: rest) acc
          = some (Json.obj (acc.reverse ++ (k, v) :: ms), rest)) := by
  induction N with
  | zero =>
    refine ⟨?_, ?_, ?_⟩
    · intro v fuel rest hN _ _
      have := fuelValue_pos v
      omega
    · intro x xs fuel rest acc hN _ _
      have := fuelElems_cons_value_le x xs
      have := fuelValue_pos x
      omega
    · intro k v ms fuel rest acc hN _ _
      have := fuelMembers_cons_value_le k v ms
      have := fuelValue_pos v
      omega
  | succ N ih =>
    obtain ⟨ihV, ihE, ihM⟩ := ih
    refine ⟨?_, ?_, ?_⟩
    · intro v fuel rest hN hf hr
      have hpos := fuelValue_pos v
      obtain ⟨f, rfl⟩ : ∃ f, fuel = f + 1 := ⟨fuel - 1, by omega⟩
      cases v with
      | null =>
        rw [render_null_data]
        rfl
      | bool b =>
        cases b with
        | true =>
          rw [render_true_data]
          rfl
        | false =>
          rw [render_false_data]
          rfl
      | num n =>
        obtain ⟨c, ts, hd, hp⟩ := renderInt_head n
        have h110 : c ≠ 'n' :=
          char_ne_of_toNat_ne c 'n' (by rw [show ('n').toNat = 110 from rfl]; omega)
        have h116 : c ≠ 't' :=
          char_ne_of_toNat_ne c 't' (by rw [show ('t').toNat = 116 from rfl]; omega)
        have h102 : c ≠ 'f' :=
          char_ne_of_toNat_ne c 'f' (by rw [show ('f').toNat = 102 from rfl]; omega)
        have h34 : c ≠ '"' :=
          char_ne_of_toNat_ne c '"' (by rw [show ('"').toNat = 34 from rfl]; omega)
        have h91 : c ≠ '[' :=
          char_ne_of_toNat_ne c '[' (by rw [show ('[').toNat = 91 from rfl]; omega)
        have h123 : c ≠ '\x7b' :=
          char_ne_of_toNat_ne c '\x7b' (by rw [show ('\x7b').toNat = 123 from rfl]; omega)
        have hws : ¬(c = ' ' ∨ c = '\t' ∨ c = '\n' ∨ c = '\r') := by
          intro h
          rcases h with h | h | h | h <;> subst h <;> revert hp <;> decide
        rw [render_num_eq, hd, List.cons_append, parseValue.eq_def]
        dsimp only
        rw [skipWs_cons_notWs c _ hws]
        dsimp only
        rw [if_neg h110, if_neg h116, if_neg h102, if_neg h34, if_neg h91, if_neg h123]
        rw [show c :: (ts ++ rest) = (c :: ts) ++ rest from rfl, ← hd]
        exact parseNumber_renderInt n rest hr
      | str s =>
        rw [render_str_data, List.cons_append]
        show (parseStringBody ((escapeList s.data ++ ['"']) ++ rest) []).map
            (fun p => (Json.str p.1, p.2)) = some (.str s, rest)
        rw [List.append_assoc, List.singleton_append,
          parseStringBody_escapeList s.data rest []]
        rfl
      | arr xs =>
        rw [render_arr_data, List.cons_append, List.append_assoc, List.singleton_append]
        show parseArray f (skipWs ((renderArr xs).data ++ ']' :: rest))
          = some (.arr xs, rest)
        cases xs with
        | nil =>
          rw [show ((renderArr ([] : List Json)).data ++ ']' :: rest) = ']' :: rest
            from rfl]
          rw [skipWs_cons_notWs _ _ (by decide)]
          simp only [fuelValue, fuelElems] at hf
          obtain ⟨f2, rfl⟩ : ∃ f2, f = f2 + 1 := ⟨f - 1, by omega⟩
          rfl
        | cons x xs' =>
          obtain ⟨tl, htl⟩ := renderArr_cons_data x xs'
          obtain ⟨c, ts, hcd, hp⟩ := render_head x
          have hhead : (renderArr (x :: xs')).data = c :: (ts ++ tl) := by
            rw [htl, hcd, List.cons_append]
          have hws : ¬(c = ' ' ∨ c = '\t' ∨ c = '\n' ∨ c = '\r') := by
            intro h
            rcases h with h | h | h | h <;> subst h <;> revert hp <;> decide
          have hne : c ≠ ']' := by
            intro h
            subst h
            revert hp
            decide
          rw [fuelValue] at hf hN
          have h1 := fuelElems_cons_value_le x xs'
          obtain ⟨f2, rfl⟩ : ∃ f2, f = f2 + 1 := ⟨f - 1, by omega⟩
          rw [hhead, List.cons_append, skipWs_cons_notWs c _ hws, parseArray.eq_def]
          dsimp only
          rw [if_neg hne]
          rw [show c :: ((ts ++ tl) ++ ']' :: rest)
              = (renderArr (x :: xs')).data ++ ']' :: rest from by
            rw [hhead, List.cons_append]]
          exact ihE x xs' f2 rest [] (by omega) (by omega) hr
      | obj ms =>
        rw [render_obj_data, List.cons_append, List.append_assoc, List.singleton_append]
        show parseObject f (skipWs ((renderObj ms).data ++ '\x7d' :: rest))
          = some (.obj ms, rest)
        cases ms with
        | nil =>
          rw [show ((renderObj ([] : List (String × Json))).data ++ '\x7d' :: rest)
              = '\x7d' :: rest from rfl]
          rw [skipWs_cons_notWs _ _ (by decide)]
          simp only [fuelValue, fuelMembers] at hf
          obtain ⟨f2, rfl⟩ : ∃ f2, f = f2 + 1 := ⟨f - 1, by omega⟩
          rfl
        | cons m ms' =>
          obtain ⟨k, v2⟩ := m
          have hhead : ∃ ts, (renderObj ((k, v2) :: ms')).data = '"' :: ts := by
            cases ms' with
            | nil => exact ⟨_, renderObj_single_data k v2⟩
            | cons m2 ms2 => exact ⟨_, renderObj_cons2_data k v2 m2 ms2⟩
          obtain ⟨ts, hts⟩ := hhead
          rw [fuelValue] at hf hN
          have h1 := fuelMembers_cons_value_le k v2 ms'
          obtain ⟨f2, rfl⟩ : ∃ f2, f = f2 + 1 := ⟨f - 1, by omega⟩
          rw [hts, List.cons_append, skipWs_cons_notWs _ _ (by decide)]
          show parseMembers f2 ('"' :: (ts ++ '\x7d' :: rest)) []
            = some (Json.obj ((k, v2) :: ms'), rest)
          rw [show '"' :: (ts ++ '\x7d' :: rest)
              = (renderObj ((k, v2) :: ms')).data ++ '\x7d' :: rest from by
            rw [hts, List.cons_append]]
          exact ihM k v2 ms' f2 rest [] (by omega) (by omega) hr
    · intro x xs fuel rest acc hN hf hr
      have h1 := fuelElems_cons_value_le x xs
      have h2 := fuelElems_cons_rest_le x xs
      have hposx := fuelValue_pos x
      obtain ⟨f, rfl⟩ : ∃ f, fuel = f + 1 := ⟨fuel - 1, by omega⟩
      cases xs with
      | nil =>
        have hv := ihV x f (']' :: rest) (by simp only [fuelElems] at hN; omega)
          (by simp only [fuelElems] at hf; omega) (Or.inr (Or.inl rfl))
        rw [show (renderArr [x]).data = (render x).data from by rw [renderArr]]
        rw [parseElements_step f _ acc x (']' :: rest) hv]
        rw [skipWs_cons_notWs _ _ (by decide)]
        show some (Json.arr (x :: acc).reverse, rest)
          = some (Json.arr (acc.reverse ++ [x]), rest)
        rw [List.reverse_cons]
      | cons y ys =>
        have hra : (renderArr (x :: y :: ys)).data
            = (render x).data ++ ',' :: (renderArr (y :: ys)).data := by
          rw [renderArr]
          simp [String.data_append]
        rw [hra, List.append_assoc, List.cons_append]
        have hv := ihV x f (',' :: ((renderArr (y :: ys)).data ++ ']' :: rest))
          (by omega) (by omega) (Or.inl rfl)
        rw [parseElements_step f _ acc x _ hv]
        rw [skipWs_cons_notWs _ _ (by decide)]
        show parseElements f ((renderArr (y :: ys)).data ++ ']' :: rest) (x :: acc)
          = some (Json.arr (acc.reverse ++ x :: y :: ys), rest)
        rw [ihE y ys f rest (x :: acc) (by omega) (by omega) hr]
        rw [List.reverse_cons, List.append_assoc, List.singleton_append]
    · intro k v ms fuel rest acc hN hf hr
      have h1 := fuelMembers_cons_value_le k v ms
      have h2 := fuelMembers_cons_rest_le k v ms
      have hposv := fuelValue_pos v
      obtain ⟨f, rfl⟩ : ∃ f, fuel = f + 1 := ⟨fuel - 1, by omega⟩
      cases ms with
      | nil =>
        rw [renderObj_single_data k v, List.cons_append]
        simp only [List.append_assoc, List.cons_append]
        have hkey := parseStringBody_escapeList k.data
          (':' :: ((render v).data ++ '\x7d' :: rest)) []
        have hv := ihV v f ('\x7d' :: rest) (by omega) (by omega)
          (Or.inr (Or.inr rfl))
        rw [parseMembers_quote f _ acc _ _ v _ hkey hv]
        rw [skipWs_cons_notWs _ _ (by decide)]
        show some (Json.obj ((k, v) :: acc).reverse, rest)
          = some (Json.obj (acc.reverse ++ [(k, v)]), rest)
        rw [List.reverse_cons]
      | cons m2 ms2 =>
        obtain ⟨k2, v2⟩ := m2
        rw [renderObj_cons2_data k v (k2, v2) ms2, List.cons_append]
        simp only [List.append_assoc, List.cons_append]
        have hkey := parseStringBody_escapeList k.data
          (':' :: ((render v).data ++ ','
            :: ((renderObj ((k2, v2) :: ms2)).data ++ '\x7d' :: rest))) []
        have hv := ihV v f
          (',' :: ((renderObj ((k2, v2) :: ms2)).data ++ '\x7d' :: rest))
          (by omega) (by omega) (Or.inl rfl)
        rw [parseMembers_quote f _ acc _ _ v _ hkey hv]
        rw [skipWs_cons_notWs _ _ (by decide)]
        show parseMembers f
            (skipWs ((renderObj ((k2, v2) :: ms2)).data ++ '\x7d' :: rest))
            ((k, v) :: acc)
          = some (Json.obj (acc.reverse ++ (k, v) :: (k2, v2) :: ms2), rest)
        have hhead2 : ∃ ts2, (renderObj ((k2, v2) :: ms2)).data = '"' :: ts2 := by
          cases ms2 with
          | nil => exact ⟨_, renderObj_single_data k2 v2⟩
          | cons m3 ms3 => exact ⟨_, renderObj_cons2_data k2 v2 m3 ms3⟩
        obtain ⟨ts2, hts2⟩ := hhead2
        rw [show skipWs ((renderObj ((k2, v2) :: ms2)).data ++ '\x7d' :: rest)
            = (renderObj ((k2, v2) :: ms2)).data ++ '\x7d' :: rest from by
          rw [hts2, List.cons_append]
          exact skipWs_cons_notWs _ _ (by decide)]
        rw [ihM k2 v2 ms2 f rest ((k, v) :: acc) (by omega) (by omega) hr]
        rw [List.reverse_cons, List.append_assoc, List.singleton_append]

/-- `parseValue` inverts `render` whenever the fuel suffices. -/
theorem parseValue_render (v : Json) (fuel : Nat) (rest : List Char)
    (hf : fuelValue v ≤ fuel) (hr : StopRest rest) :
    parseValue fuel ((render v).data ++ rest) = some (v, rest) :=
  (parse_render_main (fuelValue v)).1 v fuel rest (le_refl _) hf hr

/-- Element fuel of a one-element list. -/
theorem fuelElems_single (x : Json) : fuelElems [x] = 1 + fuelValue x := by
  rw [fuelElems, fuelElems, Nat.max_zero]

/-- Member fuel of a one-member list. -/
theorem fuelMembers_single (k : String) (v : Json) :
    fuelMembers [(k, v)] = 1 + fuelValue v := by
  rw [fuelMembers, fuelMembers, Nat.max_zero]

/-- A rendered integer is non-empty. -/
theorem renderInt_length_pos (n : Int) : 1 ≤ (renderInt n).data.length := by
  obtain ⟨c, ts, hd, _⟩ := renderInt_head n
  rw [hd]
  simp

/-- Length of a rendered array: the brackets around the element list. -/
theorem render_arr_length (xs : List Json) :
    (render (Json.arr xs)).data.length = (renderArr xs).data.length + 2 := by
  rw [render_arr_data]
  simp only [List.length_cons, List.length_append, List.length_singleton,
    List.length_nil]

/-- Length of a rendered object: the braces around the member list. -/
theorem render_obj_length (ms : List (String × Json)) :
    (render (Json.obj ms)).data.length = (renderObj ms).data.length + 2 := by
  rw [render_obj_data]
  simp only [List.length_cons, List.length_append, List.length_singleton,
    List.length_nil]

/-- Length of a rendered element list with two or more elements. -/
theorem renderArr_cons2_length (x y : Json) (ys : List Json) :
    (renderArr (x :: y :: ys)).data.length
      = (render x).data.length + 1 + (renderArr (y :: ys)).data.length := by
  rw [renderArr]
  simp [String.data_append]
  omega

/-- Length of a one-member rendered object body. -/
theorem renderObj_single_length (k : String) (v : Json) :
    (renderObj [(k, v)]).data.length
      = (escapeList k.data).length + 3 + (render v).data.length := by
  rw [renderObj_single_data]
  simp only [List.length_cons, List.length_append]
  omega

/-- Length of a rendered object body with two or more members. -/
theorem renderObj_cons2_length (k : String) (v : Json) (m : String × Json)
    (ms : List (String × Json)) :
    (renderObj ((k, v) :: m :: ms)).data.length
      = (escapeList k.data).length + 4 + (render v).data.length
        + (renderObj (m :: ms)).data.length := by
  rw [renderObj_cons2_data]
  simp only [List.length_cons, List.length_append]
  omega

/-- The fuel measure of a value is bounded by twice the length of its
rendering (joint induction on a bound for the measure), so `parseJson`'s
fuel budget always suffices for a rendered value. -/
theorem fuel_le_main (N : Nat) :
    (∀ v, fuelValue v ≤ N → fuelValue v + 1 ≤ 2 * (render v).data.length) ∧
    (∀ x xs, fuelElems (x :: xs) ≤ N →
        fuelElems (x :: xs) ≤ 2 * (renderArr (x :: xs)).data.length) ∧
    (∀ k v ms, fuelMembers ((k, v) :: ms) ≤ N →
        fuelMembers ((k, v) :: ms) ≤ 2 * (renderObj ((k, v) :: ms)).data.length) := by
  induction N with
  | zero =>
    refine ⟨?_, ?_, ?_⟩
    · intro v hN
      have := fuelValue_pos v
      omega
    · intro x xs hN
      have := fuelElems_cons_value_le x xs
      have := fuelValue_pos x
      omega
    · intro k v ms hN
      have := fuelMembers_cons_value_le k v ms
      have := fuelValue_pos v
      omega
  | succ N ih =>
    obtain ⟨ihV, ihE, ihM⟩ := ih
    refine ⟨?_, ?_, ?_⟩
    · intro v hN
      cases v with
      | null => decide
      | bool b => cases b <;> decide
      | num n =>
        have := renderInt_length_pos n
        rw [show (render (Json.num n)).data.length = (renderInt n).data.length
          from rfl]
        simp only [fuelValue]
        omega
      | str s =>
        rw [show (render (Json.str s)).data.length
          = (escapeList s.data).length + 2 from by
            rw [render_str_data]
            simp only [List.length_cons, List.length_append, List.length_singleton,
              List.length_nil]]
        simp only [fuelValue]
        omega
      | arr xs =>
        rw [render_arr_length]
        cases xs with
        | nil =>
          simp only [fuelValue, fuelElems]
          omega
        | cons x xs' =>
          rw [fuelValue] at hN ⊢
          have h1 := fuelElems_cons_value_le x xs'
          have hE := ihE x xs' (by omega)
          omega
      | obj ms =>
        rw [render_obj_length]
        cases ms with
        | nil =>
          simp only [fuelValue, fuelMembers]
          omega
        | cons m ms' =>
          obtain ⟨k, v2⟩ := m
          rw [fuelValue] at hN ⊢
          have h1 := fuelMembers_cons_value_le k v2 ms'
          have hM := ihM k v2 ms' (by omega)
          omega
    · intro x xs hN
      have h1 := fuelElems_cons_value_le x xs
      have h2 := fuelElems_cons_rest_le x xs
      cases xs with
      | nil =>
        rw [fuelElems_single] at hN ⊢
        rw [show (renderArr [x]).data = (render x).data from by rw [renderArr]]
        have hV := ihV x (by omega)
        omega
      | cons y ys =>
        rw [renderArr_cons2_length]
        have hV := ihV x (by omega)
        have hE := ihE y ys (by omega)
        have hm : max (fuelValue x) (fuelElems (y :: ys))
            ≤ 2 * (render x).data.length + 2 * (renderArr (y :: ys)).data.length :=
          Nat.max_le.mpr ⟨by omega, by omega⟩
        rw [fuelElems]
        omega
    · intro k v ms hN
      have h1 := fuelMembers_cons_value_le k v ms
      have h2 := fuelMembers_cons_rest_le k v ms
      cases ms with
      | nil =>
        rw [fuelMembers_single] at hN ⊢
        rw [renderObj_single_length]
        have hV := ihV v (by omega)
        omega
      | cons m2 ms2 =>
        obtain ⟨k2, v2⟩ := m2
        rw [renderObj_cons2_length]
        have hV := ihV v (by omega)
        have hM := ihM k2 v2 ms2 (by omega)
        have hm : max (fuelValue v) (fuelMembers ((k2, v2) :: ms2))
            ≤ 2 * (render v).data.length
              + 2 * (renderObj ((k2, v2) :: ms2)).data.length :=
          Nat.max_le.mpr ⟨by omega, by omega⟩
        rw [fuelMembers]
        omega

/-- `parseJson` inverts `render`: parsing a rendered value yields the
value (the `serde_json` text layer loses nothing). -/
theorem parseJson_render (v : Json) : parseJson (render v) = some v := by
  have hb := (fuel_le_main (fuelValue v)).1 v (le_refl _)
  have h := parseValue_render v (2 * (render v).length + 2) []
    (by rw [show (render v).length = (render v).data.length from rfl]; omega)
    (by exact trivial)
  rw [List.append_nil] at h
  rw [parseJson.eq_def, h]
  rfl

/-! ## Claim C5 — round trip -/

/-- Helper: `u64` deserialisation recovers a cast `Nat` inside the
`u64` range. -/
theorem decodeU64_natCast (i : Nat) (h : i < 2 ^ 64) :
    decodeU64 (.num (i : Int)) = some i := by
  simp only [decodeU64]
  rw [if_pos ⟨Int.natCast_nonneg i, by exact_mod_cast h⟩, Int.toNat_natCast]

/-- Helper: `i32` deserialisation recovers an integer in the `i32`
range. -/
theorem decodeI32_of_range (c : Int) (h1 : -(2 ^ 31) ≤ c) (h2 : c < 2 ^ 31) :
    decodeI32 (.num c) = some c := by
  simp only [decodeI32]
  rw [if_pos ⟨h1, h2⟩]

/-- Helper: decoding an encoded error payload recovers the payload with
a `Some(Null)` data field collapsed to absent. -/
theorem decodeError_encodeError (e : JsonRpcError) (h : wfError e = true) :
    decodeError (encodeError e) = some (normalizeError e) := by
  simp only [wfError, decide_eq_true_eq] at h
  rcases e with ⟨code, msg, data⟩
  rcases data with _ | d <;>
    simp [encodeError, optField, decodeError, decodeErrorMap,
      decodeI32_of_range code h.1 h.2, decodeString, normalizeError, normOpt]

/-- Helper: `Option<JsonRpcError>` deserialisation of an encoded error
object (never `null`) goes through the Error struct deserialiser. -/
theorem decodeOptError_encodeError (e : JsonRpcError) (h : wfError e = true) :
    decodeOptError (encodeError e) = some (some (normalizeError e)) := by
  have hstep : decodeOptError (encodeError e) = (decodeError (encodeError e)).map some := rfl
  rw [hstep, decodeError_encodeError e h]
  rfl

/-- Helper: the Request map deserialiser on the field shape an encoded
Request without params produces. -/
theorem decodeRequestMap_shape_noparams (a b2 d2 : Json) (i : ℕ) (m ver : String)
    (hdec : decodeU64 a = some i) (hm : decodeString b2 = some m)
    (hv : decodeString d2 = some ver) :
    decodeRequestMap [("id", a), ("method", b2), ("jsonrpc", d2)] none none none none
      = some ⟨i, m, none, ⟨ver⟩⟩ := by
  have e1 : ("method" : String) ≠ "id" := by decide
  have e4 : ("jsonrpc" : String) ≠ "id" := by decide
  have e5 : ("jsonrpc" : String) ≠ "method" := by decide
  have e6 : ("jsonrpc" : String) ≠ "params" := by decide
  simp only [decodeRequestMap, hdec, hm, hv, decodeVersion, Option.map_some,
    if_neg e1, if_neg e4, if_neg e5, if_neg e6, eq_self_iff_true, if_pos trivial]
  rfl

/-- Helper: the Request map deserialiser on the field shape an encoded
Request with params produces. -/
theorem decodeRequestMap_shape_params (a b2 pv d2 : Json) (i : ℕ) (m ver : String)
    (hdec : decodeU64 a = some i) (hm : decodeString b2 = some m)
    (hv : decodeString d2 = some ver) :
    decodeRequestMap [("id", a), ("method", b2), ("params", pv), ("jsonrpc", d2)]
      none none none none = some ⟨i, m, decodeOptValue pv, ⟨ver⟩⟩ := by
  have e1 : ("method" : String) ≠ "id" := by decide
  have e2 : ("params" : String) ≠ "id" := by decide
  have e3 : ("params" : String) ≠ "method" := by decide
  have e4 : ("jsonrpc" : String) ≠ "id" := by decide
  have e5 : ("jsonrpc" : String) ≠ "method" := by decide
  have e6 : ("jsonrpc" : String) ≠ "params" := by decide
  simp only [decodeRequestMap, hdec, hm, hv, decodeVersion, Option.map_some,
    if_neg e1, if_neg e2, if_neg e3, if_neg e4, if_neg e5, if_neg e6,
    eq_self_iff_true, if_pos trivial]
  rfl

/-- Helper: the Response map deserialiser on the shape `id`, `jsonrpc`. -/
theorem decodeResponseMap_shape00 (a d2 : Json) (i : ℕ) (ver : String)
    (hdec : decodeU64 a = some i) (hv : decodeString d2 = some ver) :
    decodeResponseMap [("id", a), ("jsonrpc", d2)] none none none none
      = some ⟨i, none, none, ⟨ver⟩⟩ := by
  have e4 : ("jsonrpc" : String) ≠ "id" := by decide
  have e5 : ("jsonrpc" : String) ≠ "result" := by decide
  have e6 : ("jsonrpc" : String) ≠ "error" := by decide
  simp only [decodeResponseMap, hdec, hv, decodeVersion, Option.map_some,
    if_neg e4, if_neg e5, if_neg e6, eq_self_iff_true, if_pos trivial]
  rfl

/-- Helper: the Response map deserialiser on the shape `id`, `result`,
`jsonrpc`. -/
theorem decodeResponseMap_shape10 (a rv d2 : Json) (i : ℕ) (ver : String)
    (hdec : decodeU64 a = some i) (hv : decodeString d2 = some ver) :
    decodeResponseMap [("id", a), ("result", rv), ("jsonrpc", d2)] none none none none
      = some ⟨i, decodeOptValue rv, none, ⟨ver⟩⟩ := by
  have e1 : ("result" : String) ≠ "id" := by decide
  have e4 : ("jsonrpc" : String) ≠ "id" := by decide
  have e5 : ("jsonrpc" : String) ≠ "result" := by decide
  have e6 : ("jsonrpc" : String) ≠ "error" := by decide
  simp only [decodeResponseMap, hdec, hv, decodeVersion, Option.map_some,
    if_neg e1, if_neg e4, if_neg e5, if_neg e6, eq_self_iff_true, if_pos trivial]
  rfl

/-- Helper: the Response map deserialiser on the shape `id`, `error`,
`jsonrpc`. -/
theorem decodeResponseMap_shape01 (a ej d2 : Json) (i : ℕ) (er : Option JsonRpcError)
    (ver : String) (hdec : decodeU64 a = some i) (he : decodeOptError ej = some er)
    (hv : decodeString d2 = some ver) :
    decodeResponseMap [("id", a), ("error", ej), ("jsonrpc", d2)] none none none none
      = some ⟨i, none, er, ⟨ver⟩⟩ := by
  have e2 : ("error" : String) ≠ "id" := by decide
  have e3 : ("error" : String) ≠ "result" := by decide
  have e4 : ("jsonrpc" : String) ≠ "id" := by decide
  have e5 : ("jsonrpc" : String) ≠ "result" := by decide
  have e6 : ("jsonrpc" : String) ≠ "error" := by decide
  simp only [decodeResponseMap, hdec, he, hv, decodeVersion, Option.map_some,
    if_neg e2, if_neg e3, if_neg e4, if_neg e5, if_neg e6,
    eq_self_iff_true, if_pos trivial]
  rfl

/-- Helper: the Response map deserialiser on the shape `id`, `result`,
`error`, `jsonrpc`. -/
theorem decodeResponseMap_shape11 (a rv ej d2 : Json) (i : ℕ)
    (er : Option JsonRpcError) (ver : String)
    (hdec : decodeU64 a = some i) (he : decodeOptError ej = some er)
    (hv : decodeString d2 = some ver) :
    decodeResponseMap [("id", a), ("result", rv), ("error", ej), ("jsonrpc", d2)]
      none none none none = some ⟨i, decodeOptValue rv, er, ⟨ver⟩⟩ := by
  have e1 : ("result" : String) ≠ "id" := by decide
  have e2 : ("error" : String) ≠ "id" := by decide
  have e3 : ("error" : String) ≠ "result" := by decide
  have e4 : ("jsonrpc" : String) ≠ "id" := by decide
  have e5 : ("jsonrpc" : String) ≠ "result" := by decide
  have e6 : ("jsonrpc" : String) ≠ "error" := by decide
  simp only [decodeResponseMap, hdec, he, hv, decodeVersion, Option.map_some,
    if_neg e1, if_neg e2, if_neg e3, if_neg e4, if_neg e5, if_neg e6,
    eq_self_iff_true, if_pos trivial]
  rfl

/-- Helper: an encoded Request is rejected by the Response shape — its
`method` key is unknown to Response. -/
theorem decodeResponse_encodeRequest (r : JsonRpcRequest) :
    decodeResponse (encodeRequest r) = none := by
  obtain ⟨i, m, p, ⟨ver⟩⟩ := r
  rcases p with _ | pv
  · exact decodeResponseMap_unknown_key "method" (.str m)
      (by decide) (by decide) (by decide) (by decide)
      [("id", .num (i : Int)), ("method", .str m), ("jsonrpc", .str ver)]
      none none none none (by simp)
  · exact decodeResponseMap_unknown_key "method" (.str m)
      (by decide) (by decide) (by decide) (by decide)
      [("id", .num (i : Int)), ("method", .str m), ("params", pv), ("jsonrpc", .str ver)]
      none none none none (by simp)

/-- Helper: an encoded Request decodes back to itself under the Request
shape, with a `Some(Null)` params field collapsed to absent. -/
theorem decodeRequest_encodeRequest (r : JsonRpcRequest) (hid : r.id < 2 ^ 64) :
    decodeRequest (encodeRequest r) = some ⟨r.id, r.method, normOpt r.params, r.jsonrpc⟩ := by
  obtain ⟨i, m, p, ⟨ver⟩⟩ := r
  rcases p with _ | pv
  · exact decodeRequestMap_shape_noparams (.num (i : Int)) (.str m) (.str ver) i m ver
      (decodeU64_natCast i hid) rfl rfl
  · exact decodeRequestMap_shape_params (.num (i : Int)) (.str m) pv (.str ver) i m ver
      (decodeU64_natCast i hid) rfl rfl

/-- Helper: an encoded Notification is rejected by the Response shape. -/
theorem decodeResponse_encodeNotification (n : JsonRpcNotification) :
    decodeResponse (encodeNotification n) = none := by
  rcases n with ⟨m, p, ⟨ver⟩⟩
  rcases p with _ | pv <;>
    simp [encodeNotification, optField, decodeResponse, decodeResponseMap]

/-- Helper: an encoded Notification is rejected by the Request shape —
its required `id` field is missing. -/
theorem decodeRequest_encodeNotification (n : JsonRpcNotification) :
    decodeRequest (encodeNotification n) = none := by
  rcases n with ⟨m, p, ⟨ver⟩⟩
  rcases p with _ | pv <;>
    simp [encodeNotification, optField, decodeRequest, decodeRequestMap,
      decodeString, decodeVersion]

/-- Helper: an encoded Notification decodes back to itself under the
Notification shape. -/
theorem decodeNotification_encodeNotification (n : JsonRpcNotification) :
    decodeNotification (encodeNotification n)
      = some ⟨n.method, normOpt n.params, n.jsonrpc⟩ := by
  rcases n with ⟨m, p, ⟨ver⟩⟩
  rcases p with _ | pv <;>
    simp [encodeNotification, optField, decodeNotification, decodeNotificationMap,
      decodeString, decodeVersion, normOpt]

/-- Helper: an encoded Response decodes back to itself under the
Response shape (tried first), with `Some(Null)` result and error-data
collapsed to absent. -/
theorem decodeResponse_encodeResponse (r : JsonRpcResponse) (hid : r.id < 2 ^ 64)
    (herr : ∀ e, r.error = some e → wfError e = true) :
    decodeResponse (encodeResponse r)
      = some ⟨r.id, normOpt r.result, r.error.map normalizeError, r.jsonrpc⟩ := by
  obtain ⟨i, res, err, ⟨ver⟩⟩ := r
  rcases err with _ | ev
  · rcases res with _ | rv
    · exact decodeResponseMap_shape00 (.num (i : Int)) (.str ver) i ver
        (decodeU64_natCast i hid) rfl
    · exact decodeResponseMap_shape10 (.num (i : Int)) rv (.str ver) i ver
        (decodeU64_natCast i hid) rfl
  · have hev : wfError ev = true := herr ev rfl
    rcases res with _ | rv
    · exact decodeResponseMap_shape01 (.num (i : Int)) (encodeError ev) (.str ver) i
        (some (normalizeError ev)) ver (decodeU64_natCast i hid)
        (decodeOptError_encodeError ev hev) rfl
    · exact decodeResponseMap_shape11 (.num (i : Int)) rv (encodeError ev) (.str ver) i
        (some (normalizeError ev)) ver (decodeU64_natCast i hid)
        (decodeOptError_encodeError ev hev) rfl

/-- Helper: the untagged deserialiser returns the Response variant when
the Response shape accepts the value. -/
theorem decodeMessage_of_response (v : Json) (p : JsonRpcResponse)
    (h1 : decodeResponse v = some p) :
    decodeMessage v = some (.response p) := by
  unfold decodeMessage
  rw [h1]

/-- Helper: the untagged deserialiser falls through to the Request
variant when Response rejects and Request accepts. -/
theorem decodeMessage_of_request (v : Json) (q : JsonRpcRequest)
    (h1 : decodeResponse v = none) (h2 : decodeRequest v = some q) :
    decodeMessage v = some (.request q) := by
  unfold decodeMessage
  rw [h1, h2]

/-- Helper: the untagged deserialiser falls through to the Notification
variant when Response and Request both reject. -/
theorem decodeMessage_of_notification (v : Json) (n0 : JsonRpcNotification)
    (h1 : decodeResponse v = none) (h2 : decodeRequest v = none)
    (h3 : decodeNotification v = some n0) :
    decodeMessage v = some (.notification n0) := by
  unfold decodeMessage
  rw [h1, h2, h3]
  rfl

/-- Helper: the untagged deserialiser inverts the serialiser at the
JSON-value level — for every constructible message (field values within
the Rust types' ranges), decoding the encoded value succeeds and returns
the message itself, up to the documented normalisation of optional-field
presence (an optional JSON value `Some(Null)` serialises as `null` and
decodes back as absent). -/
theorem decodeMessage_encodeMessage (m : JsonRpcMessage) (h : wfMessage m = true) :
    decodeMessage (encodeMessage m) = some (normalizeMessage m) := by
  rcases m with r | r | n
  · simp only [wfMessage, Bool.and_eq_true, decide_eq_true_eq] at h
    obtain ⟨hid, herr⟩ := h
    have herr2 : ∀ e, r.error = some e → wfError e = true := by
      intro e he
      rw [he] at herr
      exact herr
    exact decodeMessage_of_response (encodeResponse r)
      ⟨r.id, normOpt r.result, r.error.map normalizeError, r.jsonrpc⟩
      (decodeResponse_encodeResponse r hid herr2)
  · simp only [wfMessage, decide_eq_true_eq] at h
    exact decodeMessage_of_request (encodeRequest r)
      ⟨r.id, r.method, normOpt r.params, r.jsonrpc⟩
      (decodeResponse_encodeRequest r) (decodeRequest_encodeRequest r h)
  · exact decodeMessage_of_notification (encodeNotification n)
      ⟨n.method, normOpt n.params, n.jsonrpc⟩
      (decodeResponse_encodeNotification n) (decodeRequest_encodeNotification n)
      (decodeNotification_encodeNotification n)

/-- Claim C5: for every constructible message (field values within the
Rust types' ranges), `decode(encode(m))` at the text level — parsing the
rendered line with `from_str` after serialising with `to_string` —
succeeds and returns the message itself, up to the documented
normalisation of optional-field presence (an optional JSON value
`Some(Null)` serialises as `null` and decodes back as absent). -/
theorem C5_from_str_to_string_round_trip (m : JsonRpcMessage)
    (h : wfMessage m = true) :
    from_str (to_string m) = some (normalizeMessage m) := by
  rw [from_str, to_string, parseJson_render (encodeMessage m)]
  exact decodeMessage_encodeMessage m h

/-- Claim C5 witness: the text-level round trip at a concrete request. -/
theorem C5_from_str_to_string_round_trip_witness :
    wfMessage (.request ⟨1, "ping", none, ⟨"2.0"⟩⟩) = true ∧
    from_str (to_string (.request ⟨1, "ping", none, ⟨"2.0"⟩⟩))
      = some (normalizeMessage (.request ⟨1, "ping", none, ⟨"2.0"⟩⟩)) :=
  ⟨by decide, C5_from_str_to_string_round_trip _ (by decide)⟩

end Mcp
